import Mathlib

/-!
# Verification of the Obsidian-Markdown → LaTeX post-processor

A shallow embedding of `postprocess.py`: the transformation pipeline
`process_text`, the template splicing `inject_body`, and their helpers.
Documents are modelled as `List Char`; every Python `re.sub` pass becomes an
explicit left-to-right scanner with the same leftmost, non-overlapping
semantics (replacements are never rescanned, scanning resumes after each
match).  Whitespace (`\s`), word characters (`\b`) and case folding are the
ASCII ones, which is what the documents this tool processes contain.
-/

namespace Post

/-- A document is a list of characters. -/
abbrev Text := List Char

/-- Characters of a string literal. -/
def lit (s : String) : Text := s.data

/-- ASCII whitespace, as matched by Python `\s` / `str.strip` on ASCII text. -/
def isWs (c : Char) : Bool :=
  c = ' ' || c = '\t' || c = '\n' || c = '\r' || c = '\x0b' || c = '\x0c'

/-- Python regex word character `\w` (ASCII): letters, digits, underscore. -/
def isWord (c : Char) : Bool := c.isAlphanum || c = '_'

/-- Characters allowed in a table slug: `[a-zA-Z0-9_-]`. -/
def isSlugChar (c : Char) : Bool := c.isAlphanum || c = '_' || c = '-'

theorem dropWhileLen (p : Char → Bool) (l : Text) :
    (l.dropWhile p).length ≤ l.length := by
  induction l with
  | nil => simp [List.dropWhile]
  | cons c cs ih =>
    simp only [List.dropWhile]
    split
    · exact Nat.le_succ_of_le ih
    · simp

/-- Does `p` occur at the very start of `t`? -/
def isPre : Text → Text → Bool
  | [], _ => true
  | _ :: _, [] => false
  | p :: ps, c :: cs => p = c && isPre ps cs

/-- Does `pat` occur somewhere in `t` (Python `pat in t`, `t.find(pat) != -1`)? -/
def hasSub (pat : Text) : Text → Bool
  | [] => isPre pat []
  | c :: cs => isPre pat (c :: cs) || hasSub pat cs

/-- Split at the first occurrence of `pat`: `some (before, after)` where
`t = before ++ pat ++ after` and `pat` does not occur earlier. -/
def splitSub (pat : Text) : Text → Option (Text × Text)
  | [] => if isPre pat [] then some ([], []) else none
  | c :: cs =>
    if isPre pat (c :: cs) then some ([], (c :: cs).drop pat.length)
    else match splitSub pat cs with
      | some (a, b) => some (c :: a, b)
      | none => none

/-- Split at the first occurrence of character `ch` (Python `split(ch, 1)`). -/
def splitChar (ch : Char) : Text → Option (Text × Text)
  | [] => none
  | c :: cs =>
    if c = ch then some ([], cs)
    else match splitChar ch cs with
      | some (a, b) => some (c :: a, b)
      | none => none

/-- Python `str.replace(pat, repl)`: replace all non-overlapping occurrences,
left to right (also Python `re.sub` on a literal pattern).  Structural scan:
after a match the next `pat.length - 1` characters are skipped (the counter
is the first argument); `pat` is nonempty at every use site. -/
def replAllAux (pat repl : Text) : Nat → Text → Text
  | _, [] => []
  | Nat.succ n, _ :: cs => replAllAux pat repl n cs
  | 0, c :: cs =>
    if isPre pat (c :: cs) then
      repl ++ replAllAux pat repl (pat.length - 1) cs
    else c :: replAllAux pat repl 0 cs

/-- Python `str.replace(pat, repl)` for nonempty `pat`. -/
def replAll (pat repl t : Text) : Text := replAllAux pat repl 0 t

/-- Strip leading characters satisfying `p`. -/
def ltrimIf (p : Char → Bool) (t : Text) : Text := t.dropWhile p

/-- Strip trailing characters satisfying `p` (Python `rstrip`). -/
def rtrimIf (p : Char → Bool) (t : Text) : Text := (t.reverse.dropWhile p).reverse

/-- Python `str.strip()` (ASCII whitespace). -/
def pyStrip (t : Text) : Text := rtrimIf isWs (ltrimIf isWs t)

/-- Python `str.rstrip()` (ASCII whitespace). -/
def pyRstrip (t : Text) : Text := rtrimIf isWs t

/-- ASCII lower-casing (Python `.lower()` on the ASCII text at hand). -/
def lowerT (t : Text) : Text := t.map Char.toLower

/-- Index of the last element satisfying `p`, if any. -/
def lastIdxP (p : Char → Bool) (t : Text) : Option Nat :=
  (t.reverse.findIdx? p).map fun r => t.length - 1 - r

/-- `" ".join(s.split())`: strip, and collapse each internal whitespace run
to a single space.  `started` records that a word has been emitted, `pend`
that whitespace has been seen since (a separator is pending). -/
def squashWs : Bool → Bool → Text → Text
  | _, _, [] => []
  | started, pend, c :: cs =>
    if isWs c then squashWs started true cs
    else if started && pend then ' ' :: c :: squashWs true false cs
    else c :: squashWs true false cs

/-- Join with a separator. -/
def joinSep (sep : Text) : List Text → Text
  | [] => []
  | [x] => x
  | x :: xs => x ++ sep ++ joinSep sep xs

/-!
## `slugify`

```python
def slugify(s):
    s = s.strip()
    s = re.sub(r"\s+", "-", s)
    s = re.sub(r"[^0-9A-Za-z\-]", "", s)
    return s.lower()
```
-/

/-- `re.sub(r"\s+", "-", s)`: each maximal whitespace run becomes one hyphen
(the flag says a run is in progress and its hyphen already emitted). -/
def collapseWsAux : Bool → Text → Text
  | _, [] => []
  | inRun, c :: cs =>
    if isWs c then
      if inRun then collapseWsAux true cs else '-' :: collapseWsAux true cs
    else c :: collapseWsAux false cs

/-- `re.sub(r"\s+", "-", s)`. -/
def collapseWs (t : Text) : Text := collapseWsAux false t

/-- `slugify` from `postprocess.py`. -/
def slugify (s : Text) : Text :=
  ((collapseWs (pyStrip s)).filter fun c => c.isAlphanum || c = '-').map Char.toLower

/-!
## `extract_braced`

```python
def extract_braced(text, start):
    depth = 1
    i = start
    while i < len(text) and depth > 0:
        ch = text[i]
        if ch == "{": depth += 1
        elif ch == "}": depth -= 1
        i += 1
    return text[start : i - 1], i
```

The index-based while loop is rendered as a structural scan of the suffix
`text[start:]` that counts how many characters the loop consumes (`ebAux`);
the loop advances `i` by exactly that count.
-/

/-- One step of the brace-depth counter of `extract_braced`. -/
def stepDepth (d : Nat) (c : Char) : Nat :=
  if c = '\x7b' then d + 1 else if c = '\x7d' then d - 1 else d

/-- Number of characters consumed by the `extract_braced` while loop when run
on remaining text `t` with current `depth`. -/
def ebAux : Text → Nat → Nat
  | [], _ => 0
  | c :: cs, d => if d = 0 then 0 else 1 + ebAux cs (stepDepth d c)

/-- `extract_braced` from `postprocess.py` (on `Text`; `start` is an index). -/
def extract_braced (text : Text) (start : Nat) : Text × Nat :=
  let k := ebAux (text.drop start) 1
  (((text.drop start).take (start + k - 1 - start)), start + k)

/-- The braced-group prefix of `t` when one `{` is already open: the content up
to (excluding) the matching `}`; used wherever the source calls
`extract_braced(block, idx)` with `idx` just past an opening brace. -/
def bracedInner (t : Text) : Text := t.take (ebAux t 1 - 1)

/-- Brace depth after scanning `t` starting from depth `d`. -/
def runDepth (t : Text) (d : Nat) : Nat := t.foldl stepDepth d

/-- Scanning `t` from depth `d`, the depth is positive after every step, so
the `extract_braced` loop never stops inside `t`. -/
def minPos : Text → Nat → Bool
  | [], _ => true
  | c :: cs, d => decide (1 ≤ stepDepth d c) && minPos cs (stepDepth d c)

theorem ebAux_zero (t : Text) : ebAux t 0 = 0 := by
  cases t <;> simp [ebAux]

theorem ebAux_le (t : Text) (d : Nat) : ebAux t d ≤ t.length := by
  induction t generalizing d with
  | nil => simp [ebAux]
  | cons c cs ih =>
    simp only [ebAux, List.length_cons]
    split
    · omega
    · have := ih (stepDepth d c)
      omega

theorem ebAux_seg (seg rest : Text) (d : Nat) (hd : 1 ≤ d)
    (hm : minPos seg d = true) :
    ebAux (seg ++ rest) d = seg.length + ebAux rest (runDepth seg d) := by
  induction seg generalizing d with
  | nil => simp [runDepth]
  | cons c cs ih =>
    simp only [minPos, Bool.and_eq_true, decide_eq_true_eq] at hm
    simp only [List.cons_append, ebAux, List.length_cons]
    rw [if_neg (by omega)]
    simp only [List.append_eq]
    rw [ih (stepDepth d c) hm.1 hm.2]
    have hr : runDepth (c :: cs) d = runDepth cs (stepDepth d c) := rfl
    rw [hr]
    omega

/-- **C10**: `extract_braced(text, start)` terminates on every string and
index — the embedded function is total and the returned index is bounded by
`start + |text|`, mirroring the loop guard `i < len(text)` — and when the
brace sequence starting at `start` (with one brace already open) is balanced
within `text` (scanning `inner` from depth 1 keeps the depth positive and
returns to depth 1, the following character being the matching `}`), it
returns the substring from `start` up to but excluding the matching closing
brace, paired with the index just past that closing brace. -/
theorem claim_C10 :
    (∀ (text : Text) (start : Nat),
      (extract_braced text start).2 ≤ start + text.length) ∧
    (∀ (pre inner post : Text), minPos inner 1 = true → runDepth inner 1 = 1 →
      extract_braced (pre ++ (inner ++ '\x7d' :: post)) pre.length
        = (inner, pre.length + inner.length + 1)) := by
  constructor
  · intro text start
    have h1 := ebAux_le (text.drop start) 1
    have h2 : (text.drop start).length ≤ text.length := by
      simp [List.length_drop]
    simp only [extract_braced]
    omega
  · intro pre inner post hm hr
    have hdrop : (pre ++ (inner ++ '\x7d' :: post)).drop pre.length
        = inner ++ '\x7d' :: post := List.drop_left pre _
    have hone : ebAux ('\x7d' :: post) 1 = 1 := by
      simp [ebAux, stepDepth, ebAux_zero]
    have hk : ebAux (inner ++ '\x7d' :: post) 1 = inner.length + 1 := by
      rw [ebAux_seg inner ('\x7d' :: post) 1 (Nat.le_refl 1) hm, hr, hone]
    simp only [extract_braced, hdrop, hk]
    have hidx : pre.length + (inner.length + 1) - 1 - pre.length
        = inner.length := by omega
    rw [hidx]
    have htake : (inner ++ '\x7d' :: post).take inner.length = inner :=
      List.take_left inner _
    rw [htake]
    have : pre.length + (inner.length + 1) = pre.length + inner.length + 1 := by
      omega
    rw [this]

/-- Concrete instance of `claim_C10`: the balanced group `a{b}c` inside
`x{a{b}c}y`, extracted from index 2. -/
theorem claim_C10_witness :
    (minPos (lit "a\x7bb\x7dc") 1 = true ∧ runDepth (lit "a\x7bb\x7dc") 1 = 1) ∧
    extract_braced (lit "x\x7b" ++ (lit "a\x7bb\x7dc" ++ '\x7d' :: lit "y"))
        (lit "x\x7b").length
      = (lit "a\x7bb\x7dc", (lit "x\x7b").length + (lit "a\x7bb\x7dc").length + 1) :=
  ⟨⟨by decide, by decide⟩,
    claim_C10.2 (lit "x\x7b") (lit "a\x7bb\x7dc") (lit "y") (by decide) (by decide)⟩

/-!
## Image paths and figure blocks
-/

/-- Split at every occurrence of `ch` (Python `str.split(ch)`). -/
def splitAllChar (ch : Char) : Text → List Text
  | [] => [[]]
  | c :: cs =>
    let r := splitAllChar ch cs
    if c = ch then [] :: r
    else (c :: r.headD []) :: r.tail

/-- `pathlib.Path(p).name` for POSIX-style paths: the last component, with
empty and `.` components dropped (as `PurePath.parts` does). -/
def pathName (p : Text) : Text :=
  (((splitAllChar '/' p).filter fun s => !s.isEmpty && !(s == ['.'])).getLastD [])

/-- `pathlib.Path(p).stem`: the final component without its suffix; a dot at
position 0 of the name or as its last character does not start a suffix. -/
def stemOf (p : Text) : Text :=
  let name := pathName p
  match lastIdxP (· = '.') name with
  | some i => if 0 < i ∧ i < name.length - 1 then name.take i else name
  | none => name

/-- `path_stem` from `postprocess.py`. -/
def path_stem (imgPath : Text) : Text :=
  stemOf (replAll (lit "\\ ") (lit " ") imgPath)

/-- `caption_from_filename` from `postprocess.py`. -/
def caption_from_filename (imgPath : Text) : Text :=
  let cap := pyStrip ((path_stem imgPath).map fun c =>
    if c = '_' || c = '-' then ' ' else c)
  match cap with
  | [] => lit "Figure"
  | c :: cs => c.toUpper :: cs

/-- `IMAGE_ROOTS` from `postprocess.py`. -/
def IMAGE_ROOTS : List Text :=
  [lit "figures", lit "LaTeX/figures", lit "Markdown/attachments", lit "Markdown"]

/-- `IMAGE_EXTS` from `postprocess.py`. -/
def IMAGE_EXTS : List Text :=
  [lit ".png", lit ".jpg", lit ".jpeg", lit ".svg", lit ".pdf"]

/-- `normalize_image_path`, with the file system abstracted as the existence
oracle `fsx` (standing for `Path(cand).exists()`). -/
def normalize_image_path (fsx : Text → Bool) (imgPath : Text) : Text :=
  let p0 := ltrimIf (fun c => c = '\x7b' || c = '\x7d')
    (rtrimIf (fun c => c = '\x7b' || c = '\x7d') (pyStrip imgPath))
  let p1 := replAll (lit "\\ ") (lit " ") p0
  let p2 := replAll (lit "\\_") (lit "_") p1
  let p3 := p2.map fun c => if c = '\\' then '/' else c
  if isPre (lit "http://") p3 || isPre (lit "https://") p3 then p3
  else if (match p3 with
    | '/' :: _ => true
    | c :: ':' :: '/' :: _ => c.isAlpha
    | _ => false) then p3
  else
    let basename := pathName p3
    let cands := IMAGE_ROOTS.map (fun r => r ++ '/' :: p3)
      ++ (if basename ≠ p3 then IMAGE_ROOTS.map (fun r => r ++ '/' :: basename)
          else [])
    if cands.any fsx then lit "figures/" ++ basename
    else lit "figures/" ++ p3

/-- `tex_image_path` from `postprocess.py`. -/
def tex_image_path (fsx : Text → Bool) (imgPath : Text) : Text :=
  replAll (lit " ") (lit "\\ ")
    (replAll (lit "_") (lit "\\_") (normalize_image_path fsx imgPath))

/-- `make_figure_block` from `postprocess.py` (the `.strip() + "\n\n"` of the
source literal already applied). -/
def make_figure_block (imgPath caption : Text) : Text :=
  lit "\\begin\x7bfigure\x7d[htbp]\n    \\centering\n    \\includegraphics[width=\\columnwidth]\x7b"
    ++ imgPath
    ++ lit "\x7d\n    \\caption\x7b" ++ caption
    ++ lit ".\x7d\n    \\label\x7bfig:" ++ slugify (path_stem imgPath)
    ++ lit "\x7d\n\\end\x7bfigure\x7d\n\n"

/-!
## Unicode arrows
-/

/-- `UNICODE_ARROW_TO_LATEX` from `postprocess.py` (a dict; every key is a
single character). -/
def UNICODE_ARROW_TO_LATEX : List (Char × Text) :=
  [('→', lit "\\ensuremath\x7b\\to\x7d"),
   ('←', lit "\\ensuremath\x7b\\leftarrow\x7d"),
   ('↔', lit "\\ensuremath\x7b\\leftrightarrow\x7d"),
   ('⇒', lit "\\ensuremath\x7b\\Rightarrow\x7d"),
   ('⇐', lit "\\ensuremath\x7b\\Leftarrow\x7d"),
   ('⇔', lit "\\ensuremath\x7b\\Leftrightarrow\x7d"),
   ('↦', lit "\\ensuremath\x7b\\mapsto\x7d"),
   ('⟶', lit "\\ensuremath\x7b\\longrightarrow\x7d"),
   ('⟵', lit "\\ensuremath\x7b\\longleftarrow\x7d"),
   ('⟷', lit "\\ensuremath\x7b\\longleftrightarrow\x7d"),
   ('⟹', lit "\\ensuremath\x7b\\Longrightarrow\x7d"),
   ('⟸', lit "\\ensuremath\x7b\\Longleftarrow\x7d"),
   ('⟺', lit "\\ensuremath\x7b\\Longleftrightarrow\x7d")]

/-- The dict lookup `UNICODE_ARROW_TO_LATEX[m.group(0)]` per character. -/
def arrowRepl (c : Char) : Option Text :=
  (UNICODE_ARROW_TO_LATEX.find? fun p => p.1 = c).map Prod.snd

/-- The combined alternation substitution: each mapped glyph is replaced,
every other character is kept. -/
def subArrows : Text → Text
  | [] => []
  | c :: cs => ((arrowRepl c).getD [c]) ++ subArrows cs

/-- `replace_unicode_arrows` from `postprocess.py` (including the
presence guard; the `if not txt` early return yields the same value). -/
def replace_unicode_arrows (t : Text) : Text :=
  if t.any (fun c => (arrowRepl c).isSome) then subArrows t else t

/-!
## The scanning engine for `re.sub`

Each pass is a left-to-right scan.  At every position the pass tries to match
its pattern on the remaining suffix (`step`); on a match it emits the
replacement and resumes after the matched span (Python `re.sub`: leftmost,
non-overlapping, replacements never rescanned).  The `Bool` flag says whether
a match may start at the current position; it abstracts the position-zero
state of `(?m)^` anchors and of look-behinds, and `upd` computes the flag
from the character just before the next position.  Every pattern in this
file matches at least one character, so `step` always reports a positive
consumed count; the `k = 0` fallback only keeps the recursion well-founded.
-/

/-- The scan, with a skip counter: after a match of `k` characters the
replacement is emitted and the next `k - 1` characters (beyond the current
one) are passed over without matching, updating the flag as they go. -/
def rescanAux (upd : Char → Bool) (step : Text → Option (Text × Nat)) :
    Nat → Bool → Text → Text
  | _, _, [] => []
  | Nat.succ n, _, c :: cs => rescanAux upd step n (upd c) cs
  | 0, ok, c :: cs =>
    match (if ok then step (c :: cs) else none) with
    | none => c :: rescanAux upd step 0 (upd c) cs
    | some (r, k) => r ++ rescanAux upd step (k - 1) (upd c) cs

/-- One full `re.sub` pass. -/
def rescan (upd : Char → Bool) (step : Text → Option (Text × Nat))
    (ok : Bool) (t : Text) : Text :=
  rescanAux upd step 0 ok t

/-- No anchor, no look-behind. -/
def updTrue : Char → Bool := fun _ => true

/-- `(?m)^`: a match may start only at the beginning or after a newline. -/
def updLine : Char → Bool := fun c => c = '\n'

/-- `(?<!\!)`: a match may not start right after `!`. -/
def updNoBang : Char → Bool := fun c => c ≠ '!'

/-- `(?<![\\{])\b` before a word character: the previous character must be a
non-word character other than `\` and `{`. -/
def updBoundary : Char → Bool := fun c => !isWord c && c ≠ '\\' && c ≠ '\x7b'

/-- If the pattern matches at no suffix of `s`, the pass is the identity. -/
theorem rescanAux_id (upd : Char → Bool) (step : Text → Option (Text × Nat))
    (s : Text) (h : ∀ a b : Text, s = a ++ b → step b = none) :
    ∀ ok, rescanAux upd step 0 ok s = s := by
  induction s with
  | nil => intro ok; simp [rescanAux]
  | cons c cs ih =>
    intro ok
    have h0 : step (c :: cs) = none := h [] (c :: cs) rfl
    have ih2 := ih (fun a b hab => h (c :: a) b (by simp [hab])) (upd c)
    cases ok <;> simp [rescanAux, h0, ih2]

/-- If the pattern matches at no suffix of `s`, the pass is the identity. -/
theorem rescan_id (upd : Char → Bool) (step : Text → Option (Text × Nat))
    (s : Text) (h : ∀ a b : Text, s = a ++ b → step b = none) :
    ∀ ok, rescan upd step ok s = s :=
  fun ok => rescanAux_id upd step s h ok

theorem hasSub_eq_false_iff (pat s : Text) :
    hasSub pat s = false ↔ ∀ a b : Text, s = a ++ b → isPre pat b = false := by
  induction s with
  | nil =>
    simp only [hasSub]
    constructor
    · intro h a b hab
      have hb : b = [] := (List.append_eq_nil.mp hab.symm).2
      rw [hb]; exact h
    · intro h; exact h [] [] rfl
  | cons c cs ih =>
    simp only [hasSub, Bool.or_eq_false_iff]
    constructor
    · rintro ⟨h1, h2⟩ a b hab
      cases a with
      | nil =>
        have hb : b = c :: cs := by simpa using hab.symm
        rw [hb]; exact h1
      | cons x xs =>
        have hx : c = x ∧ cs = xs ++ b := by simpa using hab
        exact ih.mp h2 xs b hx.2
    · intro h
      exact ⟨h [] (c :: cs) rfl,
        ih.mpr fun a b hab => h (c :: a) b (by simp [hab])⟩

/-- A pass whose pattern begins with the literal `trig` is the identity on
texts not containing `trig`. -/
theorem rescan_id_of_not_hasSub (upd : Char → Bool)
    (step : Text → Option (Text × Nat)) (trig s : Text)
    (hstep : ∀ b : Text, isPre trig b = false → step b = none)
    (h : hasSub trig s = false) :
    ∀ ok, rescan upd step ok s = s :=
  rescan_id upd step s fun _ b hab =>
    hstep b ((hasSub_eq_false_iff trig s).mp h _ b hab)

/-!
## Figure passes (2 and 2b) and the caption patterns
-/

/-- `(?P<path>[^\]]+)\]\]`: maximal run of non-`]` characters (newlines
included — a negated class matches them even without DOTALL), then `]]`. -/
def parsePath (t : Text) : Option (Text × Text) :=
  let p := t.takeWhile (· ≠ ']')
  if p.isEmpty then none
  else match t.drop p.length with
    | ']' :: ']' :: rest => some (p, rest)
    | _ => none

/-- The caption-line condition inside `fig_pat`:
`(?:Fig(?:ure)?|Pic|Caption)[^\n]*[:\-][^\n]*` — a recognised prefix
(case-insensitive) and a colon or dash somewhere after it.  For a line
starting with `figure`, positions 3–5 hold `u r e`, so testing the `fig`
prefix subsumes the `Figure` branch of the alternation. -/
def coarseCapOk (line : Text) : Bool :=
  let l := lowerT line
  ((isPre (lit "fig") l || isPre (lit "pic") l)
      && (line.drop 3).any (fun c => c = ':' || c = '-'))
  || (isPre (lit "caption") l && (line.drop 7).any (fun c => c = ':' || c = '-'))

/-- `\s*(.+)$` on newline-free `rest`: greedy whitespace, then a nonempty
remainder; when everything left is whitespace, backtracking gives the final
character back to the group. -/
def capGroup (rest : Text) : Option Text :=
  if rest.isEmpty then none
  else
    let w := rest.dropWhile isWs
    if w.isEmpty then some [rest.getLastD ' '] else some w

/-- `[^:\n]*[:\-]\s*(.+)$` — the tail of `CAPTION_LINE_PAT` after the
optional dot (the preceding `\s*` is subsumed by `[^:\n]*` on newline-free
text).  The greedy `[^:\n]*` cannot pass a colon, so the separator is the
first colon if the rest is nonempty there, else the last dash before it. -/
def capTail (t : Text) : Option Text :=
  match List.findIdx? (fun c => c = ':') t with
  | some i =>
    (capGroup (t.drop (i + 1))).orElse fun _ =>
      match lastIdxP (· = '-') (t.take i) with
      | some j => capGroup (t.drop (j + 1))
      | none => none
  | none =>
    match lastIdxP (· = '-') (t.take (t.length - 1)) with
    | some j => capGroup (t.drop (j + 1))
    | none => none

/-- `\.?` then the caption tail (greedy: the dot-consuming branch first). -/
def capAfter : Text → Option Text
  | '.' :: rest => (capTail rest).orElse fun _ => capTail ('.' :: rest)
  | t => capTail t

/-- `CAPTION_LINE_PAT` via `re.match`: case-insensitive prefix
`Figure`/`Fig`/`Pic`/`Caption` (alternation in regex order), optional dot,
free text without a colon, a colon or dash, then the caption body (group 1,
returned). -/
def capFine (line : Text) : Option Text :=
  (if isPre (lit "figure") (lowerT line) then capAfter (line.drop 6) else none)
    |>.orElse fun _ =>
  (if isPre (lit "fig") (lowerT line) then capAfter (line.drop 3) else none)
    |>.orElse fun _ =>
  (if isPre (lit "pic") (lowerT line) then capAfter (line.drop 3) else none)
    |>.orElse fun _ =>
  (if isPre (lit "caption") (lowerT line) then capAfter (line.drop 7) else none)

/-- Step of pass 2 (`fig_pat` + `fig_repl`): an embedded image at a line
start, then whitespace containing a newline, then a caption line passing the
coarse pattern.  When the stripped caption then fails `CAPTION_LINE_PAT`,
`fig_repl` returns `m.group(0)`: the matched span is emitted unchanged. -/
def figStep (fsx : Text → Bool) (t : Text) : Option (Text × Nat) :=
  if isPre (lit "![[") t then
    match parsePath (t.drop 3) with
    | none => none
    | some (path, r2) =>
      let w := r2.takeWhile isWs
      if w.contains '\n' then
        let r3 := r2.drop w.length
        let line := r3.takeWhile (· ≠ '\n')
        if coarseCapOk line then
          let nl := if (r3.drop line.length).head? = some '\n' then 1 else 0
          let k := 3 + path.length + 2 + w.length + line.length + nl
          match capFine (pyStrip line) with
          | none => some (t.take k, k)
          | some g =>
            let cap := rtrimIf (· = '.') (pyStrip g)
            some (make_figure_block (tex_image_path fsx path) cap, k)
        else none
      else none
  else none

/-- `img_raw.lower().endswith(IMAGE_EXTS)`. -/
def hasImageExt (p : Text) : Bool :=
  IMAGE_EXTS.any fun e => e.isSuffixOf (lowerT p)

/-- Step of pass 2b (`fig_nocap_pat` + `fig_nocap_repl`): an embedded image
at a line start followed by `\s*(?:\r?\n|$)` — the whitespace run is consumed
entirely when it runs to the end of the text, else through its last newline.
A path without a recognised image extension leaves the span unchanged. -/
def figNoCapStep (fsx : Text → Bool) (t : Text) : Option (Text × Nat) :=
  if isPre (lit "![[") t then
    match parsePath (t.drop 3) with
    | none => none
    | some (path, r2) =>
      let w := r2.takeWhile isWs
      let kw : Option Nat :=
        if w.length = r2.length then some w.length
        else match lastIdxP (· = '\n') w with
          | some j => some (j + 1)
          | none => none
      match kw with
      | none => none
      | some kk =>
        let k := 3 + path.length + 2 + kk
        if hasImageExt path then
          some (make_figure_block (tex_image_path fsx path)
            (caption_from_filename path), k)
        else some (t.take k, k)
  else none

/-!
## Inline images (pass 3) and wiki-links (passes 4 and 4b)
-/

/-- `[^\]\|]+\.(?:png|jpg|jpeg|svg|pdf)` (case-insensitive): the body must
end in a recognised extension with at least one character before the dot. -/
def extOkInline (g : Text) : Bool :=
  IMAGE_EXTS.any fun e => e.isSuffixOf (lowerT g) && decide (e.length + 1 ≤ g.length)

/-- Step of pass 3 (`img_link_pat` + `inline_img`); the `(?<!\!)` look-behind
is handled by the scan flag. -/
def inlineImgStep (t : Text) : Option (Text × Nat) :=
  if isPre (lit "[[") t then
    let g := (t.drop 2).takeWhile fun c => c ≠ ']' && c ≠ '|'
    if g.isEmpty then none
    else match (t.drop 2).drop g.length with
      | ']' :: ']' :: _ =>
        if extOkInline g then
          some (lit "Figure~\\ref\x7bfig:" ++ slugify (stemOf (pyStrip g))
              ++ lit "\x7d",
            2 + g.length + 2)
        else none
      | _ => none
  else none

/-- `link_repl` (pass 4): resolve a wiki-link body into a `\hyperref`. -/
def linkRepl (fileSlug : Option Text) (raw : Text) : Text :=
  let inner := pyStrip (replAll (lit "\\textbar") (lit "|")
    (replAll (lit "\\#") (lit "#") raw))
  let ta := match splitChar '|' inner with
    | some (a, b) => (pyStrip a, some (pyStrip b))
    | none => (inner, (none : Option Text))
  let nh := match splitChar '#' ta.1 with
    | some (a, b) => (pyStrip a, pyStrip b)
    | none => (pyStrip ta.1, ([] : Text))
  let note := nh.1
  let heading := nh.2
  let aliasNE := match ta.2 with
    | some a => if a.isEmpty then none else some a
    | none => (none : Option Text)
  if heading.isEmpty then
    lit "\\hyperref[" ++ slugify note ++ lit "]\x7b" ++ aliasNE.getD note
      ++ lit "\x7d"
  else
    let lab :=
      if note.isEmpty then
        match fileSlug with
        | some fs =>
          if fs.isEmpty then slugify heading
          else fs ++ lit "--" ++ slugify heading
        | none => slugify heading
      else slugify note ++ lit "--" ++ slugify heading
    lit "\\hyperref[" ++ lab ++ lit "]\x7b" ++ aliasNE.getD heading ++ lit "\x7d"

/-- Step of pass 4 (`LINK_PAT`, DOTALL non-greedy): `[[`, then the shortest
body up to the first `]]`. -/
def linkStep (fileSlug : Option Text) (t : Text) : Option (Text × Nat) :=
  if isPre (lit "[[") t then
    match splitSub (lit "]]") (t.drop 2) with
    | some (inner, _) => some (linkRepl fileSlug inner, 2 + inner.length + 2)
    | none => none
  else none

/-- Step of pass 4b (`rewrite_heading_label`, active only under a file slug):
a `\label{...}` whose body neither starts with `fig:` nor contains `--` is
namespaced by the slug; other labels are left as matched. -/
def labelStep (fs : Text) (t : Text) : Option (Text × Nat) :=
  if isPre (lit "\\label\x7b") t then
    let g := (t.drop 7).takeWhile (· ≠ '\x7d')
    if g.isEmpty then none
    else match (t.drop 7).drop g.length with
      | '\x7d' :: _ =>
        let k := 7 + g.length + 1
        if isPre (lit "fig:") g || hasSub (lit "--") g then some (t.take k, k)
        else some (lit "\\label\x7b" ++ fs ++ lit "--" ++ g ++ lit "\x7d", k)
      | _ => none
  else none

/-!
## List spacing (passes 4c and 4d) and literal headings (pass 5b)
-/

/-- Step of pass 4c: `\n\tightlist\n?` → `\n`. -/
def tightlistStep (t : Text) : Option (Text × Nat) :=
  if isPre (lit "\n\\tightlist") t then
    some (lit "\n", if (t.drop 11).head? = some '\n' then 12 else 11)
  else none

/-- Step of pass 4d: `(\end{...})\s*\n` → `\1\n\bigskip\n`; the whitespace
run must contain a newline and is consumed through its last one. -/
def bigskipStep (env : String) (t : Text) : Option (Text × Nat) :=
  let p := lit ("\\end\x7b" ++ env ++ "\x7d")
  if isPre p t then
    let w := (t.drop p.length).takeWhile isWs
    match lastIdxP (· = '\n') w with
    | some j => some (p ++ lit "\n\\bigskip\n", p.length + j + 1)
    | none => none
  else none

/-- Step of pass 5b: `(?m)^\\#\\#\\#\\#\s+(.+)$` → `\paragraph{...}`.  The
greedy `\s+` may span newlines; `(.+)$` takes the rest of the line after it,
or — when only whitespace follows — a nonempty newline-free tail of the run,
leaving at least one whitespace character to `\s+`. -/
def headingStep (t : Text) : Option (Text × Nat) :=
  if isPre (lit "\\#\\#\\#\\#") t then
    let rest := t.drop 8
    let w := rest.takeWhile isWs
    if w.isEmpty then none
    else
      let r2 := rest.drop w.length
      if r2.isEmpty then
        match lastIdxP (fun c => c ≠ '\n') w with
        | some m =>
          if 1 ≤ m then
            let g := (w.drop m).takeWhile (· ≠ '\n')
            some (lit "\\paragraph\x7b" ++ g ++ lit "\x7d", 8 + m + g.length)
          else none
        | none => none
      else
        let g := r2.takeWhile (· ≠ '\n')
        some (lit "\\paragraph\x7b" ++ g ++ lit "\x7d", 8 + w.length + g.length)
  else none

/-!
## Brace repairs (pass 7) and display math (pass 9)
-/

/-- Step of repair 7a: `\ref{fig:}([^}]+)}` → `\ref{fig:\1}`. -/
def refFixStep (t : Text) : Option (Text × Nat) :=
  if isPre (lit "\\ref\x7bfig:\x7d") t then
    let g := (t.drop 10).takeWhile (· ≠ '\x7d')
    if g.isEmpty then none
    else match (t.drop 10).drop g.length with
      | '\x7d' :: _ =>
        some (lit "\\ref\x7bfig:" ++ g ++ lit "\x7d", 10 + g.length + 1)
      | _ => none
  else none

/-- Step of repair 7b:
`(\includegraphics\[[^]]+\])\{\}\s*([^}\s]+)\}` → `\1{\2}`. -/
def inclFixStep (t : Text) : Option (Text × Nat) :=
  if isPre (lit "\\includegraphics[") t then
    let a := (t.drop 17).takeWhile (· ≠ ']')
    if a.isEmpty then none
    else match (t.drop 17).drop a.length with
      | ']' :: '\x7b' :: '\x7d' :: r2 =>
        let w := r2.takeWhile isWs
        let r3 := r2.drop w.length
        let b := r3.takeWhile fun c => c ≠ '\x7d' && !isWs c
        if b.isEmpty then none
        else match r3.drop b.length with
          | '\x7d' :: _ =>
            some (lit "\\includegraphics[" ++ a ++ lit "]\x7b" ++ b ++ lit "\x7d",
              17 + a.length + 3 + w.length + b.length + 1)
          | _ => none
      | _ => none
  else none

/-- Step of repair 7c: `\label{fig:}([^}]+)}` → `\label{fig:\1}`. -/
def labelFixStep (t : Text) : Option (Text × Nat) :=
  if isPre (lit "\\label\x7bfig:\x7d") t then
    let g := (t.drop 12).takeWhile (· ≠ '\x7d')
    if g.isEmpty then none
    else match (t.drop 12).drop g.length with
      | '\x7d' :: _ =>
        some (lit "\\label\x7bfig:" ++ g ++ lit "\x7d", 12 + g.length + 1)
      | _ => none
  else none

/-- Step of pass 9: `\\\[(.*?)\\]` (DOTALL) →
`\begin{equation}\1\end{equation}`. -/
def eqStep (t : Text) : Option (Text × Nat) :=
  if isPre (lit "\\[") t then
    match splitSub (lit "\\]") (t.drop 2) with
    | some (mid, _) =>
      some (lit "\\begin\x7bequation\x7d" ++ mid ++ lit "\\end\x7bequation\x7d",
        2 + mid.length + 2)
    | none => none
  else none

/-!
## Long tables (pass 6) and back-references (pass 6b)
-/

/-- `re.search` of `p ⟨.*?⟩ q` for literal `p`, `q` (DOTALL): the earliest
position where `p` matches and `q` occurs later; `some (full, mid)` with
`full = p ++ mid ++ q` and `mid` minimal there. -/
def searchSpan (p q : Text) : Text → Option (Text × Text)
  | [] => none
  | c :: cs =>
    (if isPre p (c :: cs) then
      match splitSub q ((c :: cs).drop p.length) with
      | some (mid, _) => some (p ++ mid ++ q, mid)
      | none => none
     else none).orElse fun _ => searchSpan p q cs

/-- A `\label{([^}]+)}` match at the start of `t` (the group). -/
def labelAt (t : Text) : Option Text :=
  if isPre (lit "\\label\x7b") t then
    let g := (t.drop 7).takeWhile (· ≠ '\x7d')
    if g.isEmpty then none
    else match (t.drop 7).drop g.length with
      | '\x7d' :: _ => some g
      | _ => none
  else none

/-- Group of the leftmost `\label{([^}]+)}` match (`re.search`). -/
def searchLabel : Text → Option Text
  | [] => none
  | c :: cs => (labelAt (c :: cs)).orElse fun _ => searchLabel cs

/-- `re.sub(r"\\label\{[^}]+\}", "", cap)` (skip-counter scan). -/
def stripLabelsAux : Nat → Text → Text
  | _, [] => []
  | Nat.succ n, _ :: cs => stripLabelsAux n cs
  | 0, c :: cs =>
    match labelAt (c :: cs) with
    | some g => stripLabelsAux (7 + g.length + 1 - 1) cs
    | none => c :: stripLabelsAux 0 cs

/-- `re.sub(r"\\label\{[^}]+\}", "", cap)`. -/
def stripLabels (t : Text) : Text := stripLabelsAux 0 t

/-- `extract_caption_and_label` from `postprocess.py`. -/
def extract_caption_and_label (block : Text) : Option Text × Option Text :=
  let cap0 : Option Text :=
    match splitSub (lit "\\caption\x7b") block with
    | some (_, after) => some (pyStrip (bracedInner after))
    | none => none
  let label0 := (searchLabel block).map pyStrip
  let cap1 :=
    match cap0, label0 with
    | some c, some _ =>
      if c.isEmpty then some c else some (pyStrip (stripLabels c))
    | _, _ => cap0
  (match cap1 with
    | some c => if c.isEmpty then none else some c
    | none => none,
   match label0 with
    | some l => if l.isEmpty then none else some l
    | none => none)

/-- The `p`/`m`/`b` width-elimination loop of `normalize_col_spec` (the brace
skipping is the same depth-counted walk as `extract_braced`). -/
def ncsLoopAux : Nat → Text → Text
  | _, [] => []
  | Nat.succ n, _ :: cs => ncsLoopAux n cs
  | 0, c :: cs =>
    if c = 'p' || c = 'm' || c = 'b' then
      match cs with
      | '\x7b' :: r => 'X' :: ncsLoopAux (1 + ebAux r 1) cs
      | _ => c :: ncsLoopAux 0 cs
    else c :: ncsLoopAux 0 cs

/-- The `p`/`m`/`b` elimination loop of `normalize_col_spec` proper. -/
def ncsLoop (t : Text) : Text := ncsLoopAux 0 t

/-- `normalize_col_spec` from `postprocess.py`. -/
def normalize_col_spec (spec : Text) : Text :=
  ncsLoop (squashWs false false spec)

/-- `"\begin{longtable}"`. -/
def bLT : Text := lit "\\begin\x7blongtable\x7d"

/-- `"\end{longtable}"`. -/
def eLT : Text := lit "\\end\x7blongtable\x7d"

/-- `\begin{longtable}.*?\end{longtable}` at the start of `t`:
`some (block, rest)`. -/
def parseLongtable (t : Text) : Option (Text × Text) :=
  if isPre bLT t then
    match splitSub eLT (t.drop bLT.length) with
    | some (mid, rest) => some (bLT ++ mid ++ eLT, rest)
    | none => none
  else none

/-- `build_table` from `postprocess.py`. -/
def build_table (block : Text) (cap lab : Option Text) (captionAbove : Bool) :
    Text :=
  match splitSub bLT block with
  | none => block
  | some (_, afterBegin) =>
    let afterOpt := match afterBegin with
      | '[' :: r =>
        match splitChar ']' r with
        | some (_, r2) => r2
        | none => afterBegin
      | _ => afterBegin
    match splitChar '\x7b' afterOpt with
    | none => block
    | some (_, afterBrace) =>
      let colSpec := pyStrip (normalize_col_spec (bracedInner afterBrace))
      let pfx := if isPre (lit "@\x7b\x7d") colSpec then ([] : Text)
        else lit "@\x7b\x7d"
      let sfx := if (lit "@\x7b\x7d").isSuffixOf colSpec then ([] : Text)
        else lit "@\x7b\x7d"
      let headerBlock :=
        match searchSpan (lit "\\toprule") (lit "\\endfirsthead") block with
        | some (full, _) => pyStrip (replAll (lit "\\endfirsthead") [] full)
        | none =>
          match searchSpan (lit "\\toprule") (lit "\\midrule") block with
          | some (full, _) => pyStrip full
          | none => []
      let dataBlock :=
        match searchSpan (lit "\\endlastfoot") eLT block with
        | some (_, mid) => pyStrip mid
        | none =>
          match searchSpan (lit "\\endhead") eLT block with
          | some (_, mid) => pyStrip mid
          | none => []
      let body := pyStrip (joinSep (lit "\n")
        ([headerBlock, dataBlock].filter fun s => !s.isEmpty))
      let body2 :=
        if !body.isEmpty && !hasSub (lit "\\bottomrule") body
        then body ++ lit "\n\\bottomrule" else body
      let capLines : List Text :=
        match cap with
        | some c =>
          if c.isEmpty then []
          else
            (lit "  \\caption\x7b" ++ c ++ lit "\x7d")
              :: (match lab with
                  | some l =>
                    if l.isEmpty then []
                    else [lit "  \\label\x7b" ++ l ++ lit "\x7d"]
                  | none => [])
        | none => []
      let lines : List Text :=
        [[], lit "\\begin\x7btable\x7d[htbp]", lit "  \\centering"]
        ++ (if captionAbove then capLines else [])
        ++ [lit "  \\begin\x7btabularx\x7d\x7b\\linewidth\x7d\x7b"
              ++ pfx ++ colSpec ++ sfx ++ lit "\x7d"]
        ++ (if !body2.isEmpty then [lit "    " ++ body2] else [])
        ++ [lit "  \\end\x7btabularx\x7d"]
        ++ (if !captionAbove then capLines else [])
        ++ [lit "\\end\x7btable\x7d\n"]
      joinSep (lit "\n") lines

/-- `Table ([a-zA-Z0-9_-]+): ([^\n]+)` at the start of `t`:
`some (slug, caption, consumed)`. -/
def parseTableLine (t : Text) : Option (Text × Text × Nat) :=
  if isPre (lit "Table ") t then
    let slug := (t.drop 6).takeWhile isSlugChar
    if slug.isEmpty then none
    else match (t.drop 6).drop slug.length with
      | ':' :: ' ' :: r2 =>
        let cap := r2.takeWhile (· ≠ '\n')
        if cap.isEmpty then none
        else some (slug, cap, 6 + slug.length + 2 + cap.length)
      | _ => none
  else none

/-- Step of the caption-below table pass (`TABLE_CAP_BELOW` +
`table_repl_below`): the block, then a whitespace run that starts and ends
with a newline and has at least two characters (the separator
`(?:\n\s*)+(?:^|\n)` — `^` cannot match mid-string without `re.M`, so a
second newline is required), then the `Table <slug>: <caption>` line.
Returns the replacement, the consumed length, and the recorded slug. -/
def belowStep (t : Text) : Option (Text × Nat × Text) :=
  match parseLongtable t with
  | none => none
  | some (block, rest) =>
    let w := rest.takeWhile isWs
    if decide (w.head? = some '\n') && decide (w.getLastD ' ' = '\n')
        && decide (2 ≤ w.length) then
      match parseTableLine (rest.drop w.length) with
      | some (slug, cap, k2) =>
        some (build_table block
            (some (rtrimIf (· = '.') (pyStrip cap)))
            (some (lit "tbl:" ++ slugify slug)) false,
          block.length + w.length + k2, slug)
      | none => none
    else none

/-- The caption-present branch of `TABLE_CAP_ABOVE`: `(?:^|\n)` (position
zero, or a consumed newline — at position zero both alternatives are tried,
`^` first), the `Table <slug>: <caption>` line, `(?:\n\s*)+` (a whitespace
run starting with a newline), then the block. -/
def aboveCapCore (u : Text) (nl : Nat) : Option (Text × Nat × Text) :=
  match parseTableLine u with
  | none => none
  | some (slug, cap, k1) =>
    let rest := u.drop k1
    let w := rest.takeWhile isWs
    if decide (w.head? = some '\n') then
      match parseLongtable (rest.drop w.length) with
      | some (block, _) =>
        some (build_table block
            (some (rtrimIf (· = '.') (pyStrip cap)))
            (some (lit "tbl:" ++ slugify slug)) true,
          nl + k1 + w.length + block.length, slug)
      | none => none
    else none

def aboveWithCap (atStart : Bool) (t : Text) : Option (Text × Nat × Text) :=
  (if atStart then aboveCapCore t 0 else none).orElse fun _ =>
    match t with
    | '\n' :: u => aboveCapCore u 1
    | _ => none

/-- Step of the caption-above table pass (`TABLE_CAP_ABOVE` +
`table_repl_above`): the caption-line variant, or — with the optional group
absent — a bare block whose caption/label are read from inside the block. -/
def aboveStep (atStart : Bool) (t : Text) :
    Option (Text × Nat × Option Text) :=
  match aboveWithCap atStart t with
  | some (repl, k, slug) => some (repl, k, some slug)
  | none =>
    match parseLongtable t with
    | some (block, _) =>
      let cl := extract_caption_and_label block
      some (build_table block cl.1 cl.2 true, block.length, none)
    | none => none

/-- The caption-below pass: a `re.sub` scan (skip-counter form) that also
collects the slugs appended to `table_slugs` by `table_repl_below`. -/
def tableBelowAux : Nat → Text → Text × List Text
  | _, [] => ([], [])
  | Nat.succ n, _ :: cs => tableBelowAux n cs
  | 0, c :: cs =>
    match belowStep (c :: cs) with
    | some (repl, k, slug) =>
      let r := tableBelowAux (k - 1) cs
      (repl ++ r.1, slug :: r.2)
    | none =>
      let r := tableBelowAux 0 cs
      (c :: r.1, r.2)

/-- The caption-below pass. -/
def tableBelowScan (t : Text) : Text × List Text := tableBelowAux 0 t

/-- The caption-above pass (skip-counter form); the flag is true only at
position zero. -/
def tableAboveAux : Nat → Bool → Text → Text × List Text
  | _, _, [] => ([], [])
  | Nat.succ n, _, _ :: cs => tableAboveAux n false cs
  | 0, atStart, c :: cs =>
    match aboveStep atStart (c :: cs) with
    | some (repl, k, slug?) =>
      let r := tableAboveAux (k - 1) false cs
      (repl ++ r.1, (match slug? with | some s => [s] | none => []) ++ r.2)
    | none =>
      let r := tableAboveAux 0 false cs
      (c :: r.1, r.2)

/-- The caption-above pass. -/
def tableAboveScan (atStart : Bool) (t : Text) : Text × List Text :=
  tableAboveAux 0 atStart t

/-- Step of the back-reference substitution (pass 6b) for one slug:
`(?<![\\{])\bTable <slug>\b` → `Table~\ref{tbl:<slugified>}`.  The leading
boundary and look-behind live in the scan flag (`updBoundary`); the trailing
`\b` compares the last matched character with the next one. -/
def backrefStep (slug : Text) (t : Text) : Option (Text × Nat) :=
  let p := lit "Table " ++ slug
  if isPre p t then
    let lastC := slug.getLastD ' '
    let bOk := match (t.drop p.length).head? with
      | none => isWord lastC
      | some c => isWord lastC != isWord c
    if bOk then
      some (lit "Table~\\ref\x7btbl:" ++ slugify slug ++ lit "\x7d", p.length)
    else none
  else none

/-!
## The pipeline and the template splice
-/

/-- Pass 1: un-escape Pandoc's `{[}{[}` → `[[` and `{]}{]}` → `]]`. -/
def unescapePass (txt : Text) : Text :=
  replAll (lit "\x7b]\x7d\x7b]\x7d") (lit "]]")
    (replAll (lit "\x7b[\x7d\x7b[\x7d") (lit "[[") txt)

/-- `process_text` from `postprocess.py`: the full pipeline.  The file system
behind `Path(cand).exists()` is abstracted as the oracle `fsx`; `fileSlug`
is the optional slug derived from `--markdown`. -/
def process_text (fsx : Text → Bool) (fileSlug : Option Text) (txt : Text) :
    Text :=
  let t1 := unescapePass txt
  let t2 := rescan updLine (figStep fsx) true t1
  let t3 := rescan updLine (figNoCapStep fsx) true t2
  let t4 := rescan updNoBang inlineImgStep true t3
  let t5 := rescan updTrue (linkStep fileSlug) true t4
  let t6 := match fileSlug with
    | some fs => if fs.isEmpty then t5 else rescan updTrue (labelStep fs) true t5
    | none => t5
  let t7 := rescan updTrue tightlistStep true t6
  let t8 := rescan updTrue (bigskipStep "itemize") true t7
  let t9 := rescan updTrue (bigskipStep "enumerate") true t8
  let t10 := rescan updLine headingStep true t9
  let tb := tableBelowScan t10
  let ta := tableAboveScan true tb.1
  let slugs := tb.2 ++ ta.2
  let t11 := slugs.foldl
    (fun acc s => rescan updBoundary (backrefStep s) true acc) ta.1
  let t12 := rescan updTrue refFixStep true t11
  let t13 := rescan updTrue inclFixStep true t12
  let t14 := rescan updTrue labelFixStep true t13
  let t15 := replace_unicode_arrows t14
  rescan updTrue eqStep true t15

/-- `MARKER_START` from `postprocess.py`. -/
def MARKER_START : Text := lit "% === BEGIN MARKDOWN CONTENT ==="

/-- `MARKER_END` from `postprocess.py`. -/
def MARKER_END : Text := lit "% === END MARKDOWN CONTENT ==="

/-- Whether an `inject_body` run raised. -/
def isErr : Except Text Text → Bool
  | .error _ => true
  | .ok _ => false

/-- `inject_body` from `postprocess.py`.  `Except.error` models the raised
`ValueError`s: the explicit one when a marker is missing from the template,
and the tuple-unpacking one in `_, after = rest.split(MARKER_END, 1)` when
the end marker does not occur after the first start marker. -/
def inject_body (template body : Text) : Except Text Text :=
  if !hasSub MARKER_START template || !hasSub MARKER_END template then
    .error (lit "Template is missing injection markers")
  else
    match splitSub MARKER_START template with
    | none => .error (lit "Template is missing injection markers")
    | some (before, rest) =>
      match splitSub MARKER_END rest with
      | none => .error (lit "not enough values to unpack")
      | some (_, after) =>
        .ok (before ++ MARKER_START ++ lit "\n" ++ pyRstrip body ++ lit "\n"
          ++ MARKER_END ++ after)

/-!
## Claim C1 — idempotence of the pipeline
-/

/-- The replacement strings of `UNICODE_ARROW_TO_LATEX`. -/
def ARROW_VALUES : List Text := UNICODE_ARROW_TO_LATEX.map Prod.snd

theorem arrowRepl_mem (c : Char) (r : Text) (hv : arrowRepl c = some r) :
    r ∈ ARROW_VALUES := by
  unfold arrowRepl at hv
  rcases Option.map_eq_some'.mp hv with ⟨p, hp, hr⟩
  rw [← hr]
  exact List.mem_map_of_mem Prod.snd (List.mem_of_find?_eq_some hp)

theorem arrowRepl_getD_clean (c : Char) :
    ((arrowRepl c).getD [c]).any (fun d => (arrowRepl d).isSome) = false := by
  rcases Option.eq_none_or_eq_some (arrowRepl c) with hv | ⟨r, hv⟩
  · simp [hv]
  · have hall : ∀ s ∈ ARROW_VALUES,
        s.any (fun d => (arrowRepl d).isSome) = false := by decide
    rw [hv, Option.getD_some]
    exact hall r (arrowRepl_mem c r hv)

theorem subArrows_no_arrow (t : Text) :
    (subArrows t).any (fun c => (arrowRepl c).isSome) = false := by
  induction t with
  | nil => simp [subArrows]
  | cons c cs ih =>
    simp only [subArrows, List.any_append, Bool.or_eq_false_iff]
    exact ⟨arrowRepl_getD_clean c, ih⟩

/-- The pipeline is **not** idempotent: on `"\end{itemize}\n"` a second
application of `process_text` inserts a second `\bigskip` (the list-spacing
pass of step 4d matches `\end{itemize}` followed by a newline again in its
own output). -/
theorem claim_C1_counterexample :
    process_text (fun _ => false) none
        (process_text (fun _ => false) none (lit "\\end\x7bitemize\x7d\n"))
      ≠ process_text (fun _ => false) none (lit "\\end\x7bitemize\x7d\n") := by
  decide

/-- **C1** (amended): the full pipeline is not idempotent — the list-spacing
pass re-matches `\end{itemize}`/`\end{enumerate}` followed by a newline in
its own output and inserts a further `\bigskip` on every application (see
`claim_C1_counterexample`), and consecutive `\tightlist` lines are likewise
removed only one per application.  What does hold is per-pass idempotence of
the glyph normalizer: applying `replace_unicode_arrows` twice yields the same
result as applying it once, for every input — its output contains none of the
mapped glyphs, so a second application short-circuits. -/
theorem claim_C1 (t : Text) :
    replace_unicode_arrows (replace_unicode_arrows t)
      = replace_unicode_arrows t := by
  by_cases h : t.any (fun c => (arrowRepl c).isSome)
  · have h1 : replace_unicode_arrows t = subArrows t := by
      simp [replace_unicode_arrows, h]
    rw [h1]
    simp [replace_unicode_arrows, subArrows_no_arrow t]
  · have h1 : replace_unicode_arrows t = t := by
      simp [replace_unicode_arrows, h]
    rw [h1, h1]

/-!
## Claim C3 — long table without a `\toprule`
-/

/-- **C3** (evaluation at the failing input): a well-formed long table that
merely lacks `\toprule` (and the `\endhead` data marker) is *not* passed
through unchanged: `process_text` replaces it with a floating table whose
`tabularx` body is empty — the rows `A & B \\` are silently dropped. -/
theorem claim_C3 :
    process_text (fun _ => false) none
        (lit "\\begin\x7blongtable\x7d\x7bll\x7d\nA & B \\\\\n\\end\x7blongtable\x7d\n")
      = lit "\n\\begin\x7btable\x7d[htbp]\n  \\centering\n  \\begin\x7btabularx\x7d\x7b\\linewidth\x7d\x7b@\x7b\x7dll@\x7b\x7d\x7d\n  \\end\x7btabularx\x7d\n\\end\x7btable\x7d\n\n"
    ∧ process_text (fun _ => false) none
        (lit "\\begin\x7blongtable\x7d\x7bll\x7d\nA & B \\\\\n\\end\x7blongtable\x7d\n")
      ≠ lit "\\begin\x7blongtable\x7d\x7bll\x7d\nA & B \\\\\n\\end\x7blongtable\x7d\n" := by
  constructor
  · decide
  · decide

/-!
## Claim C8 — `inject_body`
-/

theorem isPre_nil_eq (pat : Text) (h : isPre pat [] = true) : pat = [] := by
  cases pat with
  | nil => rfl
  | cons p ps => simp [isPre] at h

theorem isPre_eq_append (pat t : Text) (h : isPre pat t = true) :
    t = pat ++ t.drop pat.length := by
  induction pat generalizing t with
  | nil => simp
  | cons p ps ih =>
    cases t with
    | nil => simp [isPre] at h
    | cons c cs =>
      simp only [isPre, Bool.and_eq_true, decide_eq_true_eq] at h
      have := ih cs h.2
      simp only [List.cons_append, List.length_cons, List.drop_succ_cons]
      rw [h.1, ← this]

theorem splitSub_some_eq (pat s a b : Text)
    (h : splitSub pat s = some (a, b)) : s = a ++ pat ++ b := by
  induction s generalizing a b with
  | nil =>
    simp only [splitSub] at h
    split at h
    · rename_i hp
      have hpat := isPre_nil_eq pat hp
      simp only [Option.some.injEq, Prod.mk.injEq] at h
      simp [← h.1, ← h.2, hpat]
    · exact absurd h (by simp)
  | cons c cs ih =>
    simp only [splitSub] at h
    split at h
    · rename_i hp
      simp only [Option.some.injEq, Prod.mk.injEq] at h
      rw [← h.1, ← h.2]
      simpa using isPre_eq_append pat (c :: cs) hp
    · rename_i hp
      split at h
      · rename_i a2 b2 hrec
        simp only [Option.some.injEq, Prod.mk.injEq] at h
        rw [← h.1, ← h.2]
        simpa using ih a2 b2 hrec
      · exact absurd h (by simp)

theorem splitSub_none_iff (pat s : Text) :
    splitSub pat s = none ↔ hasSub pat s = false := by
  induction s with
  | nil =>
    simp only [splitSub, hasSub]
    constructor
    · intro h
      by_cases hp : isPre pat [] = true
      · simp [hp] at h
      · simpa using hp
    · intro h
      simp [h]
  | cons c cs ih =>
    simp only [splitSub, hasSub, Bool.or_eq_false_iff]
    constructor
    · intro h
      by_cases hp : isPre pat (c :: cs) = true
      · simp [hp] at h
      · refine ⟨by simpa using hp, ?_⟩
        rw [if_neg hp] at h
        apply ih.mp
        by_cases hr : splitSub pat cs = none
        · exact hr
        · rcases Option.ne_none_iff_exists'.mp hr with ⟨⟨a, b⟩, hab⟩
          rw [hab] at h
          simp at h
    · rintro ⟨h1, h2⟩
      rw [if_neg (by simp [h1])]
      rw [ih.mpr h2]

theorem hasSub_of_splitSub_some (pat s : Text) (pr : Text × Text)
    (h : splitSub pat s = some pr) : hasSub pat s = true := by
  by_cases hh : hasSub pat s = true
  · exact hh
  · have := (splitSub_none_iff pat s).mpr (by simpa using hh)
    rw [this] at h
    exact absurd h (by simp)

theorem hasSub_append_of_right (pat x y : Text) (h : hasSub pat y = true) :
    hasSub pat (x ++ y) = true := by
  induction x with
  | nil => simpa
  | cons c cs ih => simp [hasSub, ih]

theorem hasSub_right_of_append_false (pat x y : Text)
    (h : hasSub pat (x ++ y) = false) : hasSub pat y = false := by
  by_cases hy : hasSub pat y = true
  · rw [hasSub_append_of_right pat x y hy] at h
    exact absurd h (by simp)
  · simpa using hy

/-- **C8** (amended): `inject_body` raises iff the start-marker line is
absent, or the end-marker line does not occur *after the first start marker*
(Python's `rest.split(MARKER_END, 1)` unpacking fails then, even when the end
marker occurs earlier in the template); when the end marker does occur after
the first start marker, it returns the template with the region between the
markers replaced by the (right-stripped, newline-framed) body and all
template text before the first start marker and after the following end
marker preserved. -/
theorem claim_C8 :
    (∀ template body : Text,
      (isErr (inject_body template body) = true ↔
        splitSub MARKER_START template = none ∨
        ∃ pr : Text × Text, splitSub MARKER_START template = some pr ∧
          splitSub MARKER_END pr.2 = none))
    ∧ (∀ (template body before rest mid after : Text),
        splitSub MARKER_START template = some (before, rest) →
        splitSub MARKER_END rest = some (mid, after) →
        inject_body template body
          = .ok (before ++ MARKER_START ++ lit "\n" ++ pyRstrip body
              ++ lit "\n" ++ MARKER_END ++ after)) := by
  constructor
  · intro template body
    by_cases h1 : hasSub MARKER_START template = true
    · rcases Option.ne_none_iff_exists'.mp
        (fun hn => by rw [(splitSub_none_iff _ _).mp hn] at h1; simp at h1)
        with ⟨⟨before, rest⟩, hsp⟩
      have htmpl := splitSub_some_eq _ _ _ _ hsp
      by_cases h2 : hasSub MARKER_END rest = true
      · rcases Option.ne_none_iff_exists'.mp
          (fun hn => by rw [(splitSub_none_iff _ _).mp hn] at h2; simp at h2)
          with ⟨⟨mid, after⟩, hse⟩
        have h2t : hasSub MARKER_END template = true := by
          rw [htmpl, List.append_assoc]
          exact hasSub_append_of_right _ _ _
            (hasSub_append_of_right _ _ _ h2)
        have : inject_body template body
            = .ok (before ++ MARKER_START ++ lit "\n" ++ pyRstrip body
                ++ lit "\n" ++ MARKER_END ++ after) := by
          unfold inject_body
          rw [if_neg (by simp [h1, h2t])]
          simp only [hsp, hse]
        rw [this]
        simp only [isErr]
        constructor
        · intro hf; exact absurd hf (by simp)
        · rintro (hn | ⟨pr, hpr, hpre⟩)
          · rw [hsp] at hn; exact absurd hn (by simp)
          · rw [hsp] at hpr
            have : pr = (before, rest) := by simpa using hpr.symm
            rw [this] at hpre
            simp only at hpre
            rw [hse] at hpre
            exact absurd hpre (by simp)
      · have hse : splitSub MARKER_END rest = none :=
          (splitSub_none_iff _ _).mpr (by simpa using h2)
        constructor
        · intro _
          exact Or.inr ⟨(before, rest), hsp, hse⟩
        · intro _
          unfold inject_body
          by_cases h2t : hasSub MARKER_END template = true
          · rw [if_neg (by simp [h1, h2t])]
            simp only [hsp, hse]
            simp [isErr]
          · rw [if_pos (by simp [h2t])]
            simp [isErr]
    · have hsp : splitSub MARKER_START template = none :=
        (splitSub_none_iff _ _).mpr (by simpa using h1)
      constructor
      · intro _; exact Or.inl hsp
      · intro _
        unfold inject_body
        rw [if_pos (by simp [h1])]
        simp [isErr]
  · intro template body before rest mid after hsp hse
    have h1 : hasSub MARKER_START template = true :=
      hasSub_of_splitSub_some _ _ _ hsp
    have htmpl := splitSub_some_eq _ _ _ _ hsp
    have h2 : hasSub MARKER_END rest = true :=
      hasSub_of_splitSub_some _ _ _ hse
    have h2t : hasSub MARKER_END template = true := by
      rw [htmpl, List.append_assoc]
      exact hasSub_append_of_right _ _ _ (hasSub_append_of_right _ _ _ h2)
    unfold inject_body
    rw [if_neg (by simp [h1, h2t])]
    simp only [hsp, hse]

/-- The original C8 is refuted: a template consisting of the end marker
followed by the start marker contains both marker lines, yet `inject_body`
raises (the end marker does not occur after the first start marker). -/
theorem claim_C8_counterexample :
    hasSub MARKER_START (MARKER_END ++ MARKER_START) = true
    ∧ hasSub MARKER_END (MARKER_END ++ MARKER_START) = true
    ∧ isErr (inject_body (MARKER_END ++ MARKER_START) (lit "body")) = true := by
  refine ⟨by decide, by decide, by decide⟩

/-- Concrete instance of `claim_C8`: a well-formed template. -/
theorem claim_C8_witness :
    inject_body (lit "A" ++ MARKER_START ++ (lit "B" ++ MARKER_END ++ lit "C"))
        (lit "body ")
      = .ok (lit "A" ++ MARKER_START ++ lit "\n" ++ pyRstrip (lit "body ")
          ++ lit "\n" ++ MARKER_END ++ lit "C") :=
  claim_C8.2 (lit "A" ++ MARKER_START ++ (lit "B" ++ MARKER_END ++ lit "C"))
    (lit "body ") (lit "A") (lit "B" ++ MARKER_END ++ lit "C") (lit "B")
    (lit "C") (by decide) (by decide)

/-!
## Helpers on `pyStrip`, `splitChar`, `replAll`
-/

theorem replAllAux_id (pat repl t : Text) (h : hasSub pat t = false) :
    replAllAux pat repl 0 t = t := by
  induction t with
  | nil => simp [replAllAux]
  | cons c cs ih =>
    simp only [hasSub, Bool.or_eq_false_iff] at h
    simp [replAllAux, h.1, ih h.2]

theorem replAll_id (pat repl t : Text) (h : hasSub pat t = false) :
    replAll pat repl t = t := replAllAux_id pat repl t h

theorem hasSub_head_false (c : Char) (ps t : Text) (h : c ∉ t) :
    hasSub (c :: ps) t = false := by
  induction t with
  | nil => simp [hasSub, isPre]
  | cons d ds ih =>
    have hd : c ≠ d := fun he => h (by simp [he])
    have hds := ih fun hm => h (by simp [hm])
    simp [hasSub, isPre, hds, hd]

theorem rtrimIf_length_le (p : Char → Bool) (t : Text) :
    (rtrimIf p t).length ≤ t.length := by
  unfold rtrimIf
  calc (t.reverse.dropWhile p).reverse.length
      = (t.reverse.dropWhile p).length := List.length_reverse _
    _ ≤ t.reverse.length := dropWhileLen p t.reverse
    _ = t.length := List.length_reverse t

theorem dropWhile_eq_self_of_length (p : Char → Bool) (t : Text)
    (h : (t.dropWhile p).length = t.length) : t.dropWhile p = t := by
  cases t with
  | nil => rfl
  | cons c cs =>
    by_cases hc : p c = true
    · have : (c :: cs).dropWhile p = cs.dropWhile p := by
        simp [List.dropWhile, hc]
      rw [this] at h
      have := dropWhileLen p cs
      simp only [List.length_cons] at h
      omega
    · simp [List.dropWhile, hc]

theorem ltrim_of_pyStrip (t : Text) (h : pyStrip t = t) :
    t.dropWhile isWs = t := by
  have h1 : (pyStrip t).length = t.length := by rw [h]
  have h2 : (pyStrip t).length ≤ (ltrimIf isWs t).length :=
    rtrimIf_length_le isWs (ltrimIf isWs t)
  have h3 : (ltrimIf isWs t).length ≤ t.length := dropWhileLen isWs t
  exact dropWhile_eq_self_of_length isWs t (by unfold ltrimIf at h2 h3; omega)

theorem rtrim_of_pyStrip (t : Text) (h : pyStrip t = t) :
    rtrimIf isWs t = t := by
  have hl := ltrim_of_pyStrip t h
  unfold pyStrip ltrimIf at h
  rw [hl] at h
  exact h

theorem head_not_ws_of_ltrim (c : Char) (cs : Text)
    (h : (c :: cs).dropWhile isWs = c :: cs) : isWs c = false := by
  by_cases hc : isWs c = true
  · have h2 : (c :: cs).dropWhile isWs = cs.dropWhile isWs := by
      simp [List.dropWhile, hc]
    rw [h2] at h
    have := dropWhileLen isWs cs
    have hlen := congrArg List.length h
    simp only [List.length_cons] at hlen
    omega
  · simpa using hc

theorem pyStrip_cons_of_head (c : Char) (cs : Text) (hc : isWs c = false)
    (hr : rtrimIf isWs (c :: cs) = c :: cs) : pyStrip (c :: cs) = c :: cs := by
  unfold pyStrip ltrimIf
  rw [List.dropWhile_cons_of_neg (by simp [hc])]
  exact hr

theorem rtrim_append_of_right (x y : Text) (hy : rtrimIf isWs y = y)
    (hny : y ≠ []) : rtrimIf isWs (x ++ y) = x ++ y := by
  unfold rtrimIf at hy ⊢
  rw [List.reverse_append]
  cases hyr : y.reverse with
  | nil => exact absurd (by simpa using congrArg List.reverse hyr) hny
  | cons d ds =>
    rw [hyr] at hy
    have hd : isWs d = false := by
      have : (d :: ds).dropWhile isWs = d :: ds := by
        have hinj := congrArg List.reverse hy
        rw [List.reverse_reverse] at hinj
        have : ((d :: ds).dropWhile isWs).reverse.reverse
            = (d :: ds).reverse.reverse := by rw [hinj, hyr]
        simpa using this
      exact head_not_ws_of_ltrim d ds this
    simp only [List.cons_append]
    rw [List.dropWhile_cons_of_neg (by simp [hd])]
    have hyy : y = ds.reverse ++ [d] := by
      have := congrArg List.reverse hyr
      simpa using this
    simp [hyy]

/-- `strip()` of a concatenation of two stripped nonempty pieces (with
  anything non-whitespace-delimited between them) is itself. -/
theorem pyStrip_append (x y : Text) (hx : pyStrip x = x) (hy : pyStrip y = y)
    (hnx : x ≠ []) (hny : y ≠ []) : pyStrip (x ++ y) = x ++ y := by
  cases x with
  | nil => exact absurd rfl hnx
  | cons c cs =>
    have hc : isWs c = false :=
      head_not_ws_of_ltrim c cs (ltrim_of_pyStrip _ hx)
    have hr : rtrimIf isWs ((c :: cs) ++ y) = (c :: cs) ++ y :=
      rtrim_append_of_right (c :: cs) y (rtrim_of_pyStrip y hy) hny
    simpa using pyStrip_cons_of_head c (cs ++ y) hc (by simpa using hr)

theorem splitChar_append (ch : Char) (x y : Text) (h : ch ∉ x) :
    splitChar ch (x ++ ch :: y) = some (x, y) := by
  induction x with
  | nil => simp [splitChar]
  | cons c cs ih =>
    have hc : c ≠ ch := fun he => h (by simp [he])
    have := ih fun hm => h (by simp [hm])
    simp [splitChar, hc, this]

theorem splitChar_not_mem (ch : Char) (t : Text) (h : ch ∉ t) :
    splitChar ch t = none := by
  induction t with
  | nil => rfl
  | cons c cs ih =>
    have hc : c ≠ ch := fun he => h (by simp [he])
    have := ih fun hm => h (by simp [hm])
    simp [splitChar, hc, this]

/-!
## Claim C6 — the link resolver
-/

theorem pyStrip_hash_chain (H A : Text) (hH : pyStrip H = H)
    (hA : pyStrip A = A) (hnA : A ≠ []) :
    pyStrip ('#' :: (H ++ '|' :: A)) = '#' :: (H ++ '|' :: A) := by
  have s1 : rtrimIf isWs ('|' :: A) = '|' :: A := by
    simpa using rtrim_append_of_right ['|'] A (rtrim_of_pyStrip A hA) hnA
  have s2 : rtrimIf isWs (H ++ '|' :: A) = H ++ '|' :: A :=
    rtrim_append_of_right H ('|' :: A) s1 (by simp)
  have s3 : rtrimIf isWs ('#' :: (H ++ '|' :: A)) = '#' :: (H ++ '|' :: A) := by
    simpa using rtrim_append_of_right ['#'] (H ++ '|' :: A) s2 (by simp)
  exact pyStrip_cons_of_head '#' (H ++ '|' :: A) (by decide) s3

theorem pyStrip_hash_pair (N H : Text) (hN : pyStrip N = N)
    (hH : pyStrip H = H) (hnN : N ≠ []) (hnH : H ≠ []) :
    pyStrip (N ++ '#' :: H) = N ++ '#' :: H := by
  have s1 : rtrimIf isWs ('#' :: H) = '#' :: H := by
    simpa using rtrim_append_of_right ['#'] H (rtrim_of_pyStrip H hH) hnH
  have s2 : pyStrip ('#' :: H) = '#' :: H :=
    pyStrip_cons_of_head '#' H (by decide) s1
  exact pyStrip_append N ('#' :: H) hN s2 hnN (by simp)

theorem linkRepl_unescape (raw : Text) (h : '\\' ∉ raw) :
    replAll (lit "\\textbar") (lit "|")
      (replAll (lit "\\#") (lit "#") raw) = raw := by
  have h1 : replAll (lit "\\#") (lit "#") raw = raw := by
    rw [show lit "\\#" = '\\' :: lit "#" from rfl]
    exact replAll_id _ _ _ (hasSub_head_false '\\' _ raw h)
  rw [h1, show lit "\\textbar" = '\\' :: lit "textbar" from rfl]
  exact replAll_id _ _ _ (hasSub_head_false '\\' _ raw h)

/-- **C6**: the link resolver.  `[[Setup#Install|the installer]]` resolves to
display text `the installer` and label `setup--install` (first conjunct, at
the full pipeline); and in general, for stripped, nonempty note `N`, heading
`H` and alias `A` free of the separator characters, the resolved label is
`slug(N)--slug(H)` when both are present, `slug(H)` when only the heading is
present (or `fileSlug--slug(H)` when a file slug is supplied), and `slug(N)`
when only the note is present; the display text is the alias if given, else
the heading if given, else the note. -/
theorem claim_C6 :
    (process_text (fun _ => false) none
        (lit "See [[Setup#Install|the installer]].")
      = lit "See \\hyperref[setup--install]\x7bthe installer\x7d.")
    ∧ (∀ (fs : Option Text) (N H A : Text),
        '#' ∉ N → '|' ∉ N → '\\' ∉ N → '|' ∉ H → '\\' ∉ H → '\\' ∉ A →
        pyStrip N = N → pyStrip H = H → pyStrip A = A →
        N ≠ [] → H ≠ [] → A ≠ [] →
        linkRepl fs (N ++ '#' :: (H ++ '|' :: A))
          = lit "\\hyperref[" ++ (slugify N ++ lit "--" ++ slugify H)
            ++ lit "]\x7b" ++ A ++ lit "\x7d")
    ∧ (∀ (fs : Option Text) (N H : Text),
        '#' ∉ N → '|' ∉ N → '\\' ∉ N → '|' ∉ H → '\\' ∉ H →
        pyStrip N = N → pyStrip H = H → N ≠ [] → H ≠ [] →
        linkRepl fs (N ++ '#' :: H)
          = lit "\\hyperref[" ++ (slugify N ++ lit "--" ++ slugify H)
            ++ lit "]\x7b" ++ H ++ lit "\x7d")
    ∧ (∀ (H : Text), '|' ∉ H → '\\' ∉ H → pyStrip H = H → H ≠ [] →
        linkRepl none ('#' :: H)
          = lit "\\hyperref[" ++ slugify H ++ lit "]\x7b" ++ H ++ lit "\x7d")
    ∧ (∀ (f H : Text), f ≠ [] → '|' ∉ H → '\\' ∉ H → pyStrip H = H → H ≠ [] →
        linkRepl (some f) ('#' :: H)
          = lit "\\hyperref[" ++ (f ++ lit "--" ++ slugify H)
            ++ lit "]\x7b" ++ H ++ lit "\x7d")
    ∧ (∀ (fs : Option Text) (N : Text),
        '#' ∉ N → '|' ∉ N → '\\' ∉ N → pyStrip N = N → N ≠ [] →
        linkRepl fs N
          = lit "\\hyperref[" ++ slugify N ++ lit "]\x7b" ++ N ++ lit "\x7d") := by
  refine ⟨by decide, ?_, ?_, ?_, ?_, ?_⟩
  · intro fs N H A hN1 hN2 hN3 hH1 hH2 hA1 hsN hsH hsA hnN hnH hnA
    have hraw : '\\' ∉ N ++ '#' :: (H ++ '|' :: A) := by
      simp only [List.mem_append, List.mem_cons]
      rintro (h | h | h | h | h) <;> simp_all
    have hstrip : pyStrip (N ++ '#' :: (H ++ '|' :: A))
        = N ++ '#' :: (H ++ '|' :: A) :=
      pyStrip_append N _ hsN (pyStrip_hash_chain H A hsH hsA hnA) hnN (by simp)
    have hsplit1 : splitChar '|' (N ++ '#' :: (H ++ '|' :: A))
        = some (N ++ '#' :: H, A) := by
      have := splitChar_append '|' (N ++ '#' :: H) A
        (by simp only [List.mem_append, List.mem_cons]
            rintro (h | h | h) <;> simp_all)
      simpa using this
    have hsplit2 : splitChar '#' (N ++ '#' :: H) = some (N, H) :=
      splitChar_append '#' N H hN1
    unfold linkRepl
    rw [linkRepl_unescape _ hraw, hstrip]
    simp [hsplit1, hsplit2, pyStrip_hash_pair N H hsN hsH hnN hnH,
      hsA, hsN, hsH, List.isEmpty_eq_true, hnA, hnH, hnN]
  · intro fs N H hN1 hN2 hN3 hH1 hH2 hsN hsH hnN hnH
    have hraw : '\\' ∉ N ++ '#' :: H := by
      simp only [List.mem_append, List.mem_cons]
      rintro (h | h | h) <;> simp_all
    have hstrip := pyStrip_hash_pair N H hsN hsH hnN hnH
    have hnosplit : splitChar '|' (N ++ '#' :: H) = none := by
      apply splitChar_not_mem
      simp only [List.mem_append, List.mem_cons]
      rintro (h | h | h) <;> simp_all
    have hsplit2 : splitChar '#' (N ++ '#' :: H) = some (N, H) :=
      splitChar_append '#' N H hN1
    unfold linkRepl
    rw [linkRepl_unescape _ hraw, hstrip]
    simp [hnosplit, hsplit2, hsN, hsH, List.isEmpty_eq_true, hnH, hnN]
  · intro H hH1 hH2 hsH hnH
    have hraw : '\\' ∉ '#' :: H := by
      simp only [List.mem_cons]
      rintro (h | h) <;> simp_all
    have hstrip : pyStrip ('#' :: H) = '#' :: H := by
      have s1 : rtrimIf isWs ('#' :: H) = '#' :: H := by
        simpa using rtrim_append_of_right ['#'] H (rtrim_of_pyStrip H hsH) hnH
      exact pyStrip_cons_of_head '#' H (by decide) s1
    have hnosplit : splitChar '|' ('#' :: H) = none := by
      apply splitChar_not_mem
      simp only [List.mem_cons]
      rintro (h | h) <;> simp_all
    have hsplit2 : splitChar '#' ('#' :: H) = some ([], H) := by
      simp [splitChar]
    unfold linkRepl
    rw [linkRepl_unescape _ hraw, hstrip]
    simp only [hnosplit, hsplit2, hsH, show pyStrip ([] : Text) = [] from rfl,
      List.isEmpty_eq_true, List.isEmpty_nil]
    rw [if_neg hnH]
    simp
  · intro f H hf hH1 hH2 hsH hnH
    have hraw : '\\' ∉ '#' :: H := by
      simp only [List.mem_cons]
      rintro (h | h) <;> simp_all
    have hstrip : pyStrip ('#' :: H) = '#' :: H := by
      have s1 : rtrimIf isWs ('#' :: H) = '#' :: H := by
        simpa using rtrim_append_of_right ['#'] H (rtrim_of_pyStrip H hsH) hnH
      exact pyStrip_cons_of_head '#' H (by decide) s1
    have hnosplit : splitChar '|' ('#' :: H) = none := by
      apply splitChar_not_mem
      simp only [List.mem_cons]
      rintro (h | h) <;> simp_all
    have hsplit2 : splitChar '#' ('#' :: H) = some ([], H) := by
      simp [splitChar]
    unfold linkRepl
    rw [linkRepl_unescape _ hraw, hstrip]
    simp only [hnosplit, hsplit2, hsH, show pyStrip ([] : Text) = [] from rfl,
      List.isEmpty_eq_true, List.isEmpty_nil]
    rw [if_neg hnH]
    simp [List.isEmpty_eq_true, hf]
  · intro fs N hN1 hN2 hN3 hsN hnN
    have hnosplit1 : splitChar '|' N = none := splitChar_not_mem '|' N hN2
    have hnosplit2 : splitChar '#' N = none := splitChar_not_mem '#' N hN1
    unfold linkRepl
    rw [linkRepl_unescape _ hN3, hsN]
    simp [hnosplit1, hnosplit2, hsN, List.isEmpty_eq_true, hnN]

/-- Concrete instance of the general clause of `claim_C6`:
`Setup` / `Install` / `the installer`. -/
theorem claim_C6_witness :
    linkRepl none
        (lit "Setup" ++ '#' :: (lit "Install" ++ '|' :: lit "the installer"))
      = lit "\\hyperref[" ++ (slugify (lit "Setup") ++ lit "--"
          ++ slugify (lit "Install"))
        ++ lit "]\x7b" ++ lit "the installer" ++ lit "\x7d" :=
  claim_C6.2.1 none (lit "Setup") (lit "Install") (lit "the installer")
    (by decide) (by decide) (by decide) (by decide) (by decide) (by decide)
    (by decide) (by decide) (by decide) (by decide) (by decide) (by decide)

/-!
## Per-pass trigger lemmas

Each step matches nothing on a suffix that does not begin with its pattern's
literal prefix; a pass is therefore the identity on any document that does
not contain that trigger anywhere.
-/

theorem figStep_none (fsx : Text → Bool) (b : Text)
    (h : isPre (lit "![[") b = false) : figStep fsx b = none := by
  simp [figStep, h]

theorem figNoCapStep_none (fsx : Text → Bool) (b : Text)
    (h : isPre (lit "![[") b = false) : figNoCapStep fsx b = none := by
  simp [figNoCapStep, h]

theorem inlineImgStep_none (b : Text)
    (h : isPre (lit "[[") b = false) : inlineImgStep b = none := by
  simp [inlineImgStep, h]

theorem linkStep_none (fs : Option Text) (b : Text)
    (h : isPre (lit "[[") b = false) : linkStep fs b = none := by
  simp [linkStep, h]

theorem tightlistStep_none (b : Text)
    (h : isPre (lit "\n\\tightlist") b = false) : tightlistStep b = none := by
  simp [tightlistStep, h]

theorem bigskipStep_none (env : String) (b : Text)
    (h : isPre (lit ("\\end\x7b" ++ env ++ "\x7d")) b = false) :
    bigskipStep env b = none := by
  simp [bigskipStep, h]

theorem headingStep_none (b : Text)
    (h : isPre (lit "\\#\\#\\#\\#") b = false) : headingStep b = none := by
  simp [headingStep, h]

theorem refFixStep_none (b : Text)
    (h : isPre (lit "\\ref\x7bfig:\x7d") b = false) : refFixStep b = none := by
  simp [refFixStep, h]

theorem labelFixStep_none (b : Text)
    (h : isPre (lit "\\label\x7bfig:\x7d") b = false) :
    labelFixStep b = none := by
  simp [labelFixStep, h]

theorem eqStep_none (b : Text)
    (h : isPre (lit "\\[") b = false) : eqStep b = none := by
  simp [eqStep, h]

theorem parseLongtable_none (b : Text) (h : isPre bLT b = false) :
    parseLongtable b = none := by
  simp [parseLongtable, h]

theorem belowStep_none (b : Text) (h : isPre bLT b = false) :
    belowStep b = none := by
  simp [belowStep, parseLongtable_none b h]

/-- Occurrences survive dropping the first pattern character. -/
theorem hasSub_of_cons_pat (c : Char) (pat t : Text)
    (h : hasSub (c :: pat) t = true) : hasSub pat t = true := by
  induction t with
  | nil => simp [hasSub, isPre] at h
  | cons d ds ih =>
    simp only [hasSub, Bool.or_eq_true] at h ⊢
    rcases h with h | h
    · simp only [isPre, Bool.and_eq_true] at h
      cases ds with
      | nil =>
        rw [isPre_nil_eq pat h.2]
        exact Or.inl rfl
      | cons e es => exact Or.inr (by simp [hasSub, h.2])
  /- second disjunct -/
    · exact Or.inr (ih h)

theorem isPre_drop_false (pat s : Text) (h : hasSub pat s = false) (n : Nat) :
    isPre pat (s.drop n) = false :=
  (hasSub_eq_false_iff pat s).mp h (s.take n) (s.drop n)
    (List.take_append_drop n s).symm

theorem hasSub_drop_false (pat s : Text) (h : hasSub pat s = false) (n : Nat) :
    hasSub pat (s.drop n) = false := by
  apply (hasSub_eq_false_iff pat (s.drop n)).mpr
  intro a b hab
  apply (hasSub_eq_false_iff pat s).mp h (s.take n ++ a) b
  rw [List.append_assoc, ← hab, List.take_append_drop]

theorem aboveCapCore_none (u : Text) (nl : Nat)
    (h : hasSub bLT u = false) : aboveCapCore u nl = none := by
  unfold aboveCapCore
  cases hpt : parseTableLine u with
  | none => rfl
  | some v =>
    obtain ⟨slug, cap, k1⟩ := v
    simp only
    split
    · rw [parseLongtable_none _ (by
        rw [List.drop_drop]
        exact isPre_drop_false bLT u h _)]
    · rfl

theorem aboveStep_none (atStart : Bool) (b : Text)
    (h : hasSub bLT b = false) : aboveStep atStart b = none := by
  have hwc : aboveWithCap atStart b = none := by
    unfold aboveWithCap
    have h0 : aboveCapCore b 0 = none := aboveCapCore_none b 0 h
    cases b with
    | nil => cases atStart <;> simp [h0, Option.orElse]
    | cons c cs =>
      have h1 : aboveCapCore cs 1 = none := by
        apply aboveCapCore_none
        have := hasSub_drop_false bLT (c :: cs) h 1
        simpa using this
      cases atStart <;> by_cases hc : c = '\n' <;>
        simp_all [Option.orElse] <;> split <;> simp_all
  unfold aboveStep
  rw [hwc, parseLongtable_none b ((hasSub_eq_false_iff bLT b).mp h [] b rfl)]

/-- Identity of the caption-below scan on trigger-free text. -/
theorem tableBelowAux_id (s : Text)
    (h : ∀ a b : Text, s = a ++ b → belowStep b = none) :
    tableBelowAux 0 s = (s, []) := by
  induction s with
  | nil => rfl
  | cons c cs ih =>
    have h0 : belowStep (c :: cs) = none := h [] (c :: cs) rfl
    have ih2 := ih fun a b hab => h (c :: a) b (by simp [hab])
    simp [tableBelowAux, h0, ih2]

/-- Identity of the caption-above scan on trigger-free text. -/
theorem tableAboveAux_id (s : Text)
    (h : ∀ a b : Text, s = a ++ b → ∀ fl, aboveStep fl b = none) :
    ∀ fl, tableAboveAux 0 fl s = (s, []) := by
  induction s with
  | nil => intro fl; rfl
  | cons c cs ih =>
    intro fl
    have h0 : aboveStep fl (c :: cs) = none := h [] (c :: cs) rfl fl
    have ih2 := ih (fun a b hab => h (c :: a) b (by simp [hab])) false
    simp [tableAboveAux, h0, ih2]

/-!
## Claim C5 — the frame property of the pipeline
-/

theorem head_append_left (x y : Text) (hx : x ≠ []) :
    (x ++ y).head? = x.head? := by
  cases x with
  | nil => exact absurd rfl hx
  | cons c cs => rfl

theorem drop_takeWhile_length (p : Char → Bool) (l : Text) :
    l.drop (l.takeWhile p).length = l.dropWhile p := by
  induction l with
  | nil => rfl
  | cons c cs ih =>
    by_cases hc : p c = true
    · simp [List.takeWhile_cons, List.dropWhile_cons, hc, ih]
    · simp [List.takeWhile_cons, List.dropWhile_cons, hc]

theorem isPre_self_append (p r : Text) : isPre p (p ++ r) = true := by
  induction p with
  | nil => rfl
  | cons c cs ih => simp [isPre, ih]

theorem hasSub_of_isPre (pat y : Text) (h : isPre pat y = true) :
    hasSub pat y = true := by
  cases y with
  | nil => simpa [hasSub] using h
  | cons c cs => simp [hasSub, h]

theorem hasSub2_append (x y : Char) (u v : Text)
    (hu : hasSub [x, y] u = false) (hv : hasSub [x, y] v = false)
    (hcross : ¬(u.getLast? = some x ∧ v.head? = some y)) :
    hasSub [x, y] (u ++ v) = false := by
  induction u with
  | nil => simpa using hv
  | cons c cs ih =>
    simp only [hasSub, Bool.or_eq_false_iff] at hu
    have ihh : hasSub [x, y] (cs ++ v) = false := by
      apply ih hu.2
      rintro ⟨h1, h2⟩
      cases cs with
      | nil => simp at h1
      | cons d ds =>
        refine hcross ⟨?_, h2⟩
        rw [List.getLast?_cons_cons]
        exact h1
    simp only [List.cons_append, hasSub, Bool.or_eq_false_iff]
    refine ⟨?_, ihh⟩
    by_cases hcx : x = c
    · subst hcx
      cases cs with
      | nil =>
        cases v with
        | nil => simp [isPre]
        | cons e vs =>
          by_cases hey : y = e
          · subst hey
            exact absurd ⟨rfl, rfl⟩ hcross
          · simp [isPre, hey]
      | cons d ds =>
        by_cases hyd : y = d
        · subst hyd
          simp [isPre, isPre_nil_eq] at hu
        · simp [isPre, hyd]
    · simp [isPre, hcx]

theorem arrow_values_no_bsl_bracket :
    ∀ v ∈ ARROW_VALUES, hasSub ['\\', '['] v = false
      ∧ v.getLast? ≠ some '\\' ∧ v.head? ≠ some '[' ∧ v ≠ [] := by
  decide

theorem subArrows_no_bsl_bracket (t : Text)
    (h : hasSub (lit "\\[") t = false) :
    hasSub (lit "\\[") (subArrows t) = false := by
  rw [show lit "\\[" = ['\\', '['] from rfl] at *
  induction t with
  | nil => simp [subArrows, hasSub, isPre]
  | cons c cs ih =>
    simp only [hasSub, Bool.or_eq_false_iff] at h
    have ihh := ih h.2
    show hasSub ['\\', '['] ((arrowRepl c).getD [c] ++ subArrows cs) = false
    apply hasSub2_append
    · rcases Option.eq_none_or_eq_some (arrowRepl c) with hv | ⟨r, hv⟩
      · simp [hv, hasSub, isPre]
      · rw [hv, Option.getD_some]
        exact (arrow_values_no_bsl_bracket r (arrowRepl_mem c r hv)).1
    · exact ihh
    · rintro ⟨h1, h2⟩
      rcases Option.eq_none_or_eq_some (arrowRepl c) with hv | ⟨r, hv⟩
      · rw [hv, Option.getD_none] at h1
        have hc : c = '\\' := by simpa using h1
        cases cs with
        | nil => simp [subArrows] at h2
        | cons d ds =>
          have hsa : subArrows (d :: ds)
              = (arrowRepl d).getD [d] ++ subArrows ds := rfl
          rw [hsa] at h2
          rcases Option.eq_none_or_eq_some (arrowRepl d) with hw | ⟨r2, hw⟩
          · rw [hw, Option.getD_none] at h2
            have hd : d = '[' := by simpa using h2
            subst hc
            subst hd
            simp [isPre] at h
          · rw [hw, Option.getD_some] at h2
            have hf := arrow_values_no_bsl_bracket r2 (arrowRepl_mem d r2 hw)
            rw [head_append_left r2 _ hf.2.2.2] at h2
            exact hf.2.2.1 h2
      · rw [hv, Option.getD_some] at h1
        exact (arrow_values_no_bsl_bracket r (arrowRepl_mem c r hv)).2.1 h1

theorem replace_unicode_arrows_no_bsl_bracket (t : Text)
    (h : hasSub (lit "\\[") t = false) :
    hasSub (lit "\\[") (replace_unicode_arrows t) = false := by
  unfold replace_unicode_arrows
  split
  · exact subArrows_no_bsl_bracket t h
  · exact h

theorem inclFixStep_none_of_no_braces (b : Text)
    (h : hasSub (lit "]\x7b\x7d") b = false) : inclFixStep b = none := by
  by_cases hp : isPre (lit "\\includegraphics[") b = true
  · unfold inclFixStep
    rw [if_pos hp]
    simp only
    split
    · rfl
    · split
      · rename_i r2 heq
        exfalso
        have hdw : (b.drop 17).dropWhile (· ≠ ']')
            = ']' :: '\x7b' :: '\x7d' :: r2 := by
          rw [← drop_takeWhile_length]
          exact heq
        have hdec : (b.drop 17).takeWhile (· ≠ ']')
            ++ (']' :: '\x7b' :: '\x7d' :: r2) = b.drop 17 := by
          rw [← hdw]
          exact List.takeWhile_append_dropWhile _ _
        have hsub : hasSub (lit "]\x7b\x7d") (b.drop 17) = true := by
          rw [← hdec]
          exact hasSub_append_of_right _ _ _
            (hasSub_of_isPre _ _ (isPre_self_append (lit "]\x7b\x7d") r2))
        have : hasSub (lit "]\x7b\x7d") b = true := by
          rw [← List.take_append_drop 17 b]
          exact hasSub_append_of_right _ _ _ hsub
        rw [this] at h
        exact absurd h (by simp)
      · rfl
  · unfold inclFixStep
    rw [if_neg (by simpa using hp)]

/-- The trigger substrings whose absence makes every pass except the glyph
normalizer a no-op: the two Pandoc bracket escapes, wiki-link openers (which
subsume embedded images), long tables, `\tightlist`, list ends, literal
heading markup, the three malformed brace shapes, and display math. -/
def FORBIDDEN : List Text :=
  [lit "\x7b[\x7d\x7b[\x7d", lit "\x7b]\x7d\x7b]\x7d", lit "[[", bLT,
   lit "\n\\tightlist", lit "\\end\x7bitemize\x7d", lit "\\end\x7benumerate\x7d",
   lit "\\#\\#\\#\\#", lit "\\ref\x7bfig:\x7d", lit "]\x7b\x7d",
   lit "\\label\x7bfig:\x7d", lit "\\["]

/-- A document free of every trigger in `FORBIDDEN`. -/
def cleanDoc (t : Text) : Bool := FORBIDDEN.all fun p => !hasSub p t

/-- The original C5 is refuted: `"\n\tightlist\nmore\n"` contains none of
the claim's artifact classes (no embedded images or wiki-links, no escaped
bracket sequences, no malformed brace shapes, no long tables), yet
`process_text` deletes the `\tightlist` line, which is not a glyph
substitution. -/
theorem claim_C5_counterexample :
    (hasSub (lit "[[") (lit "\n\\tightlist\nmore\n") = false
      ∧ hasSub (lit "\x7b[\x7d\x7b[\x7d") (lit "\n\\tightlist\nmore\n") = false
      ∧ hasSub (lit "\x7b]\x7d\x7b]\x7d") (lit "\n\\tightlist\nmore\n") = false
      ∧ hasSub bLT (lit "\n\\tightlist\nmore\n") = false
      ∧ hasSub (lit "\\ref\x7bfig:\x7d") (lit "\n\\tightlist\nmore\n") = false
      ∧ hasSub (lit "]\x7b\x7d") (lit "\n\\tightlist\nmore\n") = false
      ∧ hasSub (lit "\\label\x7bfig:\x7d") (lit "\n\\tightlist\nmore\n") = false)
    ∧ process_text (fun _ => false) none (lit "\n\\tightlist\nmore\n")
      ≠ replace_unicode_arrows (lit "\n\\tightlist\nmore\n") := by
  constructor
  · refine ⟨by decide, by decide, by decide, by decide, by decide, by decide,
      by decide⟩
  · decide

/-- **C5** (amended): for every document containing none of the trigger
substrings of `FORBIDDEN` — no Pandoc bracket escapes, no `[[` (hence no
wiki-links and no embedded images), no `\begin{longtable}`, and additionally
(beyond the original claim) no `\tightlist` line, no `\end{itemize}` /
`\end{enumerate}`, no literal `\#\#\#\#` heading, none of the three
malformed brace shapes (`\ref{fig:}`, `]{}`, `\label{fig:}`), and no
display-math opener `\[` — `process_text` (with no file slug) returns the
input byte-identical except for substitution of the mapped Unicode arrow
glyphs, for every state of the file system. -/
theorem claim_C5 (fsx : Text → Bool) (t : Text) (h : cleanDoc t = true) :
    process_text fsx none t = replace_unicode_arrows t := by
  have hp : ∀ p ∈ FORBIDDEN, hasSub p t = false := by
    intro p hm
    have := (List.all_eq_true.mp h) p hm
    simpa using this
  have h_esc1 := hp (lit "\x7b[\x7d\x7b[\x7d") (by decide)
  have h_esc2 := hp (lit "\x7b]\x7d\x7b]\x7d") (by decide)
  have h_br := hp (lit "[[") (by decide)
  have h_lt := hp bLT (by decide)
  have h_tl := hp (lit "\n\\tightlist") (by decide)
  have h_it := hp (lit "\\end\x7bitemize\x7d") (by decide)
  have h_en := hp (lit "\\end\x7benumerate\x7d") (by decide)
  have h_hd := hp (lit "\\#\\#\\#\\#") (by decide)
  have h_rf := hp (lit "\\ref\x7bfig:\x7d") (by decide)
  have h_ib := hp (lit "]\x7b\x7d") (by decide)
  have h_lf := hp (lit "\\label\x7bfig:\x7d") (by decide)
  have h_dm := hp (lit "\\[") (by decide)
  have h_fig : hasSub (lit "![[") t = false := by
    by_cases hb : hasSub (lit "![[") t = true
    · have h2 := hasSub_of_cons_pat '!' (lit "[[") t
        (by rw [show ('!' :: lit "[[") = lit "![[" from rfl]; exact hb)
      rw [h2] at h_br
      exact absurd h_br (by simp)
    · simpa using hb
  have e0 : unescapePass t = t := by
    unfold unescapePass
    rw [replAll_id _ _ _ h_esc1, replAll_id _ _ _ h_esc2]
  have e2 : rescan updLine (figStep fsx) true t = t :=
    rescan_id _ _ t (fun a b hab => figStep_none fsx b
      ((hasSub_eq_false_iff _ t).mp h_fig a b hab)) true
  have e3 : rescan updLine (figNoCapStep fsx) true t = t :=
    rescan_id _ _ t (fun a b hab => figNoCapStep_none fsx b
      ((hasSub_eq_false_iff _ t).mp h_fig a b hab)) true
  have e4 : rescan updNoBang inlineImgStep true t = t :=
    rescan_id _ _ t (fun a b hab => inlineImgStep_none b
      ((hasSub_eq_false_iff _ t).mp h_br a b hab)) true
  have e5 : rescan updTrue (linkStep none) true t = t :=
    rescan_id _ _ t (fun a b hab => linkStep_none none b
      ((hasSub_eq_false_iff _ t).mp h_br a b hab)) true
  have e7 : rescan updTrue tightlistStep true t = t :=
    rescan_id _ _ t (fun a b hab => tightlistStep_none b
      ((hasSub_eq_false_iff _ t).mp h_tl a b hab)) true
  have hit2 : lit ("\\end\x7b" ++ "itemize" ++ "\x7d") = lit "\\end\x7bitemize\x7d" := by
    decide
  have hen2 : lit ("\\end\x7b" ++ "enumerate" ++ "\x7d")
      = lit "\\end\x7benumerate\x7d" := by decide
  have e8 : rescan updTrue (bigskipStep "itemize") true t = t :=
    rescan_id _ _ t (fun a b hab => bigskipStep_none "itemize" b
      (by rw [hit2]; exact (hasSub_eq_false_iff _ t).mp h_it a b hab)) true
  have e9 : rescan updTrue (bigskipStep "enumerate") true t = t :=
    rescan_id _ _ t (fun a b hab => bigskipStep_none "enumerate" b
      (by rw [hen2]; exact (hasSub_eq_false_iff _ t).mp h_en a b hab)) true
  have e10 : rescan updLine headingStep true t = t :=
    rescan_id _ _ t (fun a b hab => headingStep_none b
      ((hasSub_eq_false_iff _ t).mp h_hd a b hab)) true
  have etb : tableBelowScan t = (t, []) :=
    tableBelowAux_id t fun a b hab => belowStep_none b
      ((hasSub_eq_false_iff _ t).mp h_lt a b hab)
  have eta : tableAboveScan true t = (t, []) :=
    tableAboveAux_id t (fun a b hab fl => aboveStep_none fl b
      (by rw [hab] at h_lt; exact hasSub_right_of_append_false _ a b h_lt))
      true
  have e12 : rescan updTrue refFixStep true t = t :=
    rescan_id _ _ t (fun a b hab => refFixStep_none b
      ((hasSub_eq_false_iff _ t).mp h_rf a b hab)) true
  have e13 : rescan updTrue inclFixStep true t = t :=
    rescan_id _ _ t (fun a b hab => inclFixStep_none_of_no_braces b
      (by rw [hab] at h_ib; exact hasSub_right_of_append_false _ a b h_ib))
      true
  have e14 : rescan updTrue labelFixStep true t = t :=
    rescan_id _ _ t (fun a b hab => labelFixStep_none b
      ((hasSub_eq_false_iff _ t).mp h_lf a b hab)) true
  have e16 : rescan updTrue eqStep true (replace_unicode_arrows t)
      = replace_unicode_arrows t :=
    rescan_id _ _ _ (fun a b hab => eqStep_none b
      ((hasSub_eq_false_iff _ _).mp
        (replace_unicode_arrows_no_bsl_bracket t h_dm) a b hab)) true
  unfold process_text
  simp only [e0, e2, e3, e4, e5, e7, e8, e9, e10, etb, eta, e12, e13, e14,
    e16, List.nil_append, List.append_nil, List.foldl_nil]

/-- Concrete instance of `claim_C5`: an arrow-only document. -/
theorem claim_C5_witness :
    cleanDoc (lit "x → y\n") = true
    ∧ process_text (fun _ => false) none (lit "x → y\n")
      = replace_unicode_arrows (lit "x → y\n") :=
  ⟨by decide, claim_C5 (fun _ => false) (lit "x → y\n") (by decide)⟩

/-!
## Claim C9 — purity of `process_text` with respect to the file system
-/

/-- The original C9 is refuted: `process_text` consults the file system
through `normalize_image_path`; on an embedded image whose relative path
differs from its basename the output depends on which candidate files
exist. -/
theorem claim_C9_counterexample :
    process_text (fun _ => true) none (lit "![[d/i.png]]\n")
      ≠ process_text (fun _ => false) none (lit "![[d/i.png]]\n") := by
  decide

/-- **C9** (amended): `process_text` is a deterministic function of its text,
its file slug, and the file-system existence oracle consulted by the image
passes; its output is independent of the file system whenever the unescaped
document contains no embedded-image opener `![[` — the captioned and
uncaptioned figure passes are the only consumers of the oracle. -/
theorem claim_C9 (fsx1 fsx2 : Text → Bool) (fs : Option Text) (t : Text)
    (h : hasSub (lit "![[") (unescapePass t) = false) :
    process_text fsx1 fs t = process_text fsx2 fs t := by
  have e1 : ∀ fsx : Text → Bool,
      rescan updLine (figStep fsx) true (unescapePass t) = unescapePass t :=
    fun fsx => rescan_id _ _ _ (fun a b hab => figStep_none fsx b
      ((hasSub_eq_false_iff _ _).mp h a b hab)) true
  have e2 : ∀ fsx : Text → Bool,
      rescan updLine (figNoCapStep fsx) true (unescapePass t)
        = unescapePass t :=
    fun fsx => rescan_id _ _ _ (fun a b hab => figNoCapStep_none fsx b
      ((hasSub_eq_false_iff _ _).mp h a b hab)) true
  unfold process_text
  simp only [e1, e2]

/-- Concrete instance of `claim_C9`: a document with a wiki-link but no
embedded image gives the same output under two different file systems. -/
theorem claim_C9_witness :
    hasSub (lit "![[") (unescapePass (lit "see [[Setup]]\n")) = false
    ∧ process_text (fun _ => true) none (lit "see [[Setup]]\n")
      = process_text (fun _ => false) none (lit "see [[Setup]]\n") :=
  ⟨by decide,
    claim_C9 (fun _ => true) (fun _ => false) none (lit "see [[Setup]]\n")
      (by decide)⟩

/-!
## Claim C4 — fail-open behaviour of the figure passes
-/

theorem getLastD_ne_nil (t : Text) (x y : Char) (h : t ≠ []) :
    t.getLastD x = t.getLastD y := by
  cases t with
  | nil => exact absurd rfl h
  | cons c cs => simp [List.getLastD_cons, List.getLastD]

theorem rescanAux_skipn (upd : Char → Bool) (step : Text → Option (Text × Nat)) :
    ∀ (u v : Text) (fl : Bool),
    rescanAux upd step u.length fl (u ++ v)
      = rescanAux upd step 0
          (if u.isEmpty then fl else upd (u.getLastD 'a')) v := by
  intro u
  induction u with
  | nil => intro v fl; simp
  | cons c cs ih =>
    intro v fl
    have hstep : rescanAux upd step (c :: cs).length fl ((c :: cs) ++ v)
        = rescanAux upd step cs.length (upd c) (cs ++ v) := rfl
    rw [hstep, ih v (upd c)]
    congr 1
    cases cs with
    | nil => simp [List.getLastD]
    | cons d ds =>
      rw [if_neg (by simp), if_neg (by simp)]
      simp [List.getLastD_cons]

theorem rescanAux_match_prefix (upd : Char → Bool)
    (step : Text → Option (Text × Nat)) (u v r : Text) (hu : u ≠ [])
    (hstep : step (u ++ v) = some (r, u.length)) :
    rescanAux upd step 0 true (u ++ v)
      = r ++ rescanAux upd step 0 (upd (u.getLastD 'a')) v := by
  cases u with
  | nil => exact absurd rfl hu
  | cons c cs =>
    have h0 : rescanAux upd step 0 true (c :: (cs ++ v))
        = r ++ rescanAux upd step ((cs.length + 1) - 1) (upd c) (cs ++ v) := by
      rw [show rescanAux upd step 0 true (c :: (cs ++ v))
          = (match step (c :: (cs ++ v)) with
             | none => c :: rescanAux upd step 0 (upd c) (cs ++ v)
             | some (r, k) =>
               r ++ rescanAux upd step (k - 1) (upd c) (cs ++ v)) from rfl]
      rw [show (c :: cs) ++ v = c :: (cs ++ v) from rfl] at hstep
      rw [hstep]
      rfl
    rw [show (c :: cs) ++ v = c :: (cs ++ v) from rfl, h0]
    have h1 : (cs.length + 1) - 1 = cs.length := by omega
    rw [h1, rescanAux_skipn upd step cs v (upd c)]
    cases hcs : cs with
    | nil => simp
    | cons d ds =>
      rw [if_neg (by simp [hcs])]
      rw [← hcs]
      have h2 : cs.getLastD 'a' = (c :: cs).getLastD 'a' := by
        rw [hcs]
        simp [List.getLastD_cons]
      rw [h2]

theorem takeWhile_append_cons (p : Char → Bool) (xs : Text) (y : Char)
    (ys : Text) (hall : ∀ c ∈ xs, p c = true) (hy : p y = false) :
    (xs ++ y :: ys).takeWhile p = xs := by
  induction xs with
  | nil => simp [List.takeWhile_cons, hy]
  | cons c cs ih =>
    have hc : p c = true := hall c (by simp)
    simp only [List.cons_append, List.takeWhile_cons, hc]
    simp [ih fun d hd => hall d (by simp [hd])]

/-- The original C4 is refuted: with a recognised image extension the block
`![[img.png]]` + non-caption line `Hello world` is *not* left unchanged —
the no-caption pass rewrites the image line to a figure with a
filename-derived caption (and even for unrecognised extensions the leftover
`[[...]]` is later consumed by the link-resolver pass). -/
theorem claim_C4_counterexample :
    capFine (pyStrip (lit "Hello world")) = none
    ∧ process_text (fun _ => false) none (lit "![[img.png]]\nHello world\n")
      ≠ lit "![[img.png]]\nHello world\n" := by
  refine ⟨by decide, by decide⟩

theorem extOkInline_false (p : Text) (h : hasImageExt p = false) :
    extOkInline p = false := by
  unfold hasImageExt at h
  unfold extOkInline
  rw [List.any_eq_false] at h ⊢
  intro e he
  simp [h e he]

/-- **C4** (amended): when the embedded path has *no* recognised image
extension and the following line fails the caption shape, the three figure
passes (captioned, no-caption, inline reference) leave the whole block —
image line and following line — unchanged; the no-caption pass only returns
the matched span itself.  The block must be free of the wiki-embed
metacharacters that would start a *different* embed inside it: the path
contains no `]`, `[`, `!` or `|` (the first and last are already excluded
by the embed pattern's path group `[^\]|]+`), and the following line is a
single line (no newline) that contains no `[` or `!` and starts with a
non-whitespace character.  These side conditions are necessary: a path or
line containing `[` can hold a nested `[[...]]` that the inline-reference
pass rewrites on its own.  (When the extension *is* recognised, the
no-caption pass rewrites the image line even though the next line matched
no caption — see `claim_C4_counterexample`; and in either case the leftover
`[[...]]` is consumed later by the link pass, which is not a figure
pass.) -/
theorem claim_C4 (fsx : Text → Bool) (path : Text) (n0 : Char) (ns : Text)
    (hpne : path ≠ [])
    (hpath : ∀ c ∈ path, c ≠ ']' ∧ c ≠ '[' ∧ c ≠ '!' ∧ c ≠ '|')
    (hext : hasImageExt path = false)
    (hn0ws : isWs n0 = false)
    (hnch : ∀ c ∈ n0 :: ns, c ≠ '[' ∧ c ≠ '!' ∧ c ≠ '\n')
    (hcap : capFine (pyStrip (n0 :: ns)) = none) :
    rescan updNoBang inlineImgStep true
      (rescan updLine (figNoCapStep fsx) true
        (rescan updLine (figStep fsx) true
          ('!' :: '[' :: '[' ::
            (path ++ ']' :: ']' :: '\n' :: ((n0 :: ns) ++ ['\n'])))))
      = '!' :: '[' :: '[' ::
          (path ++ ']' :: ']' :: '\n' :: ((n0 :: ns) ++ ['\n'])) := by
  set doc : Text := '!' :: '[' :: '[' ::
    (path ++ ']' :: ']' :: '\n' :: ((n0 :: ns) ++ ['\n'])) with hdoc
  obtain ⟨p0, ps, hps⟩ : ∃ p0 ps, path = p0 :: ps := by
    cases path with
    | nil => exact absurd rfl hpne
    | cons p0 ps => exact ⟨p0, ps, rfl⟩
  -- character facts
  have hPC := hpath
  have hNC := hnch
  have hdrop1 : ∀ c ∈ doc.drop 1, c ≠ '!' := by
    intro c hc he
    subst he
    simp only [hdoc, List.drop_succ_cons, List.drop_zero] at hc
    rcases List.mem_cons.mp hc with h | h
    · exact absurd h (by decide)
    rcases List.mem_cons.mp h with h | h
    · exact absurd h (by decide)
    rcases List.mem_append.mp h with h | h
    · exact (hPC _ h).2.2.1 rfl
    rcases List.mem_cons.mp h with h | h
    · exact absurd h (by decide)
    rcases List.mem_cons.mp h with h | h
    · exact absurd h (by decide)
    rcases List.mem_cons.mp h with h | h
    · exact absurd h (by decide)
    rcases List.mem_append.mp h with h | h
    · exact (hNC _ h).2.1 rfl
    · exact absurd (List.mem_singleton.mp h) (by decide)
  have hdrop3 : ∀ c ∈ doc.drop 3, c ≠ '[' := by
    intro c hc he
    subst he
    simp only [hdoc, List.drop_succ_cons, List.drop_zero] at hc
    rcases List.mem_append.mp hc with h | h
    · exact (hPC _ h).2.1 rfl
    rcases List.mem_cons.mp h with h | h
    · exact absurd h (by decide)
    rcases List.mem_cons.mp h with h | h
    · exact absurd h (by decide)
    rcases List.mem_cons.mp h with h | h
    · exact absurd h (by decide)
    rcases List.mem_append.mp h with h | h
    · exact (hNC _ h).1 rfl
    · exact absurd (List.mem_singleton.mp h) (by decide)
  -- shared parse computations
  have htail : doc.drop 3 = path ++ ']' :: ']' :: '\n' :: ((n0 :: ns) ++ ['\n']) := by
    simp [hdoc]
  have htake : (path ++ ']' :: ']' :: '\n' :: ((n0 :: ns) ++ ['\n'])).takeWhile
      (· ≠ ']') = path :=
    takeWhile_append_cons _ path ']' _
      (fun c hc => by simp [(hPC c hc).1]) (by decide)
  have hparse : parsePath (path ++ ']' :: ']' :: '\n' :: ((n0 :: ns) ++ ['\n']))
      = some (path, '\n' :: ((n0 :: ns) ++ ['\n'])) := by
    unfold parsePath
    simp only [htake]
    rw [if_neg (by simp [hpne]), List.drop_left]
    rfl
  have hw : ('\n' :: ((n0 :: ns) ++ ['\n'])).takeWhile isWs = ['\n'] := by
    rw [List.takeWhile_cons]
    simp only [show isWs '\n' = true from rfl, if_true, List.cons_append,
      List.takeWhile_cons, hn0ws]
    simp
  have hline : ((n0 :: ns) ++ ['\n']).takeWhile (· ≠ '\n') = n0 :: ns :=
    takeWhile_append_cons _ (n0 :: ns) '\n' [] (fun c hc => by
      simp [(hnch c hc).2.2]) (by decide)
  have hpre : isPre (lit "![[") doc = true := by
    simp [hdoc, isPre, lit]
  -- pass 2
  have hpass2 : rescan updLine (figStep fsx) true doc = doc := by
    by_cases hco : coarseCapOk (n0 :: ns) = true
    · -- coarse caption matches, fine fails: the span is emitted unchanged
      have hstep : figStep fsx doc = some (doc.take
          (3 + path.length + 2 + 1 + (n0 :: ns).length + 1),
          3 + path.length + 2 + 1 + (n0 :: ns).length + 1) := by
        unfold figStep
        rw [if_pos hpre, htail, hparse]
        simp only [hw, List.length_cons, List.length_nil]
        rw [if_pos (by decide)]
        simp only [List.drop_succ_cons, List.drop_zero, hline, hco, if_true]
        rw [List.drop_left]
        simp only [List.head?_cons, hcap]
        rfl
      have hk : 3 + path.length + 2 + 1 + (n0 :: ns).length + 1
          = doc.length := by
        simp [hdoc]
        omega
      have hstep2 : figStep fsx (doc ++ []) = some (doc, doc.length) := by
        rw [List.append_nil, hstep, hk, List.take_length]
      have := rescanAux_match_prefix updLine (figStep fsx) doc [] doc
        (by simp [hdoc]) hstep2
      rw [List.append_nil] at this
      rw [show rescan updLine (figStep fsx) true doc
          = rescanAux updLine (figStep fsx) 0 true doc from rfl, this]
      simp [rescanAux]
    · -- no coarse caption: no match anywhere
      apply rescan_id
      intro a b hab
      have hb : b = doc.drop a.length := by rw [hab, List.drop_left]
      cases a with
      | nil =>
        simp only [List.length_nil, List.drop_zero] at hb
        subst hb
        unfold figStep
        rw [if_pos hpre, htail, hparse]
        simp only [hw, List.length_cons, List.length_nil]
        rw [if_pos (by decide)]
        simp only [List.drop_succ_cons, List.drop_zero, hline, hco]
        simp
      | cons a0 as =>
        cases hbv : b with
        | nil => simp [figStep, isPre]
        | cons b0 bs =>
          apply figStep_none
          have hb0 : b0 ≠ '!' := by
            apply hdrop1
            have h1 : b0 ∈ doc.drop (a0 :: as).length := by
              rw [← hb, hbv]; simp
            have h2 : doc.drop (a0 :: as).length
                = (doc.drop 1).drop as.length := by
              rw [List.drop_drop]
              congr 1
              simp only [List.length_cons]
              omega
            rw [h2] at h1
            exact List.mem_of_mem_drop h1
          simp [isPre, lit, Ne.symm hb0]
  -- pass 2b
  have hnoampre : ∀ (v : Text), (∀ c ∈ v, c ≠ '!') →
      ∀ fl, rescanAux updLine (figNoCapStep fsx) 0 fl v = v := by
    intro v hv
    apply rescanAux_id
    intro a b hab
    cases hbv : b with
    | nil => simp [figNoCapStep, isPre]
    | cons b0 bs =>
      apply figNoCapStep_none
      have hb0 : b0 ≠ '!' := by
        apply hv
        rw [hab, hbv]
        simp
      simp [isPre, lit, Ne.symm hb0]
  have hpass2b : rescan updLine (figNoCapStep fsx) true doc = doc := by
    have hstep : figNoCapStep fsx doc = some (doc.take
        (3 + path.length + 2 + 1), 3 + path.length + 2 + 1) := by
      unfold figNoCapStep
      rw [if_pos hpre, htail, hparse]
      simp only [hw, List.length_cons, List.length_nil]
      rw [if_neg (by simp)]
      rw [show lastIdxP (· = '\n') ['\n'] = some 0 from by decide]
      simp only [hext]
      simp
    have hsplit : doc = ('!' :: '[' :: '[' :: (path ++ [']', ']', '\n']))
        ++ ((n0 :: ns) ++ ['\n']) := by
      simp [hdoc]
    have hk : 3 + path.length + 2 + 1
        = ('!' :: '[' :: '[' :: (path ++ [']', ']', '\n'])).length := by
      simp
      omega
    have hstep2 : figNoCapStep fsx
        (('!' :: '[' :: '[' :: (path ++ [']', ']', '\n']))
          ++ ((n0 :: ns) ++ ['\n']))
        = some ('!' :: '[' :: '[' :: (path ++ [']', ']', '\n']),
            ('!' :: '[' :: '[' :: (path ++ [']', ']', '\n'])).length) := by
      rw [← hsplit, hstep, hk]
      rw [hsplit]
      rw [List.take_left]
    have hres := rescanAux_match_prefix updLine (figNoCapStep fsx)
      ('!' :: '[' :: '[' :: (path ++ [']', ']', '\n']))
      ((n0 :: ns) ++ ['\n'])
      ('!' :: '[' :: '[' :: (path ++ [']', ']', '\n'])) (by simp) hstep2
    have hid := hnoampre ((n0 :: ns) ++ ['\n']) (by
      intro c hc
      rcases List.mem_append.mp hc with h | h
      · exact (hNC c h).2.1
      · rw [List.mem_singleton.mp h]; decide)
    rw [show rescan updLine (figNoCapStep fsx) true doc
        = rescanAux updLine (figNoCapStep fsx) 0 true doc from rfl]
    rw [hsplit]
    rw [hres, hid]
  -- pass 3
  have hpass3 : rescan updNoBang inlineImgStep true doc = doc := by
    apply rescan_id
    intro a b hab
    have hb : b = doc.drop a.length := by rw [hab, List.drop_left]
    match a, hab with
    | [], hab =>
      have : b = doc := by simpa using hab.symm
      subst this
      unfold inlineImgStep
      rw [if_neg (by simp [hdoc, isPre, lit])]
    | [a0], hab =>
      have hbd : b = '[' :: '[' ::
          (path ++ ']' :: ']' :: '\n' :: ((n0 :: ns) ++ ['\n'])) := by
        have := congrArg (List.drop 1) hab
        simpa [hdoc] using this.symm
      subst hbd
      unfold inlineImgStep
      rw [if_pos (by simp [isPre, lit])]
      simp only [List.drop_succ_cons, List.drop_zero]
      have htk : (path ++ ']' :: ']' :: '\n' :: ((n0 :: ns) ++ ['\n'])).takeWhile
          (fun c => c ≠ ']' && c ≠ '|') = path :=
        takeWhile_append_cons _ path ']' _
          (fun c hc => by simp [(hPC c hc).1, (hPC c hc).2.2.2]) (by decide)
      simp only [htk]
      rw [if_neg (by simp [hpne]), List.drop_left]
      simp [extOkInline_false path hext]
    | a0 :: a1 :: as, hab =>
      by_cases h2 : (a0 :: a1 :: as).length = 2
      · -- b starts right at the second `[`; the next character is from path
        have hbd : b = '[' ::
            (path ++ ']' :: ']' :: '\n' :: ((n0 :: ns) ++ ['\n'])) := by
          rw [hb, h2]
          simp [hdoc]
        rw [hbd]
        unfold inlineImgStep
        rw [if_neg (by
          rw [hps]
          simp only [List.cons_append]
          simp [isPre, lit, Ne.symm (hPC p0 (by rw [hps]; simp)).2.1]
          )]
      · have h3 : 3 ≤ (a0 :: a1 :: as).length := by
          simp only [List.length_cons]
          simp only [List.length_cons] at h2
          omega
        cases hbv : b with
        | nil => simp [inlineImgStep, isPre]
        | cons b0 bs =>
          apply inlineImgStep_none
          have hb0 : b0 ≠ '[' := by
            apply hdrop3
            have h1 : b0 ∈ doc.drop (a0 :: a1 :: as).length := by
              rw [← hb, hbv]; simp
            have hdd : doc.drop (a0 :: a1 :: as).length
                = (doc.drop 3).drop ((a0 :: a1 :: as).length - 3) := by
              rw [List.drop_drop]
              congr 1
              omega
            rw [hdd] at h1
            exact List.mem_of_mem_drop h1
          simp [isPre, lit, Ne.symm hb0]
  rw [hpass2, hpass2b, hpass3]

theorem claim_C4_witness :
    (lit "note" ≠ [] ∧ hasImageExt (lit "note") = false
      ∧ capFine (pyStrip ('H' :: lit "ello world")) = none)
    ∧ rescan updNoBang inlineImgStep true
        (rescan updLine (figNoCapStep (fun _ => false)) true
          (rescan updLine (figStep (fun _ => false)) true
            ('!' :: '[' :: '[' ::
              (lit "note" ++ ']' :: ']' :: '\n' ::
                (('H' :: lit "ello world") ++ ['\n'])))))
        = '!' :: '[' :: '[' ::
            (lit "note" ++ ']' :: ']' :: '\n' ::
              (('H' :: lit "ello world") ++ ['\n'])) :=
  ⟨⟨by decide, by decide, by decide⟩,
   claim_C4 (fun _ => false) (lit "note") 'H' (lit "ello world")
     (by decide) (by decide) (by decide) (by decide) (by decide) (by decide)⟩

set_option maxRecDepth 40000 in
/-- **C2**: a longtable with a `Table latency: ...` caption line on the
adjacent line above AND on the adjacent line below takes its caption and
label from the line above.  The below line is not consumed as a caption
(`TABLE_CAP_BELOW` requires a blank line in between, so it can never match
an adjacent line); it survives into the output, with only the later
back-reference pass rewriting its `Table latency` prefix.  Stated as the
exact output on the witness document, plus: the caption is the above text,
the below text is not a caption but still present, and the label is
`tbl:latency`. -/
theorem claim_C2 :
    process_text (fun _ => false) none
      (lit "Table latency: Per-node latency\n\\begin\x7blongtable\x7d\x7bll\x7d\n\\toprule\nA & B \\\\\n\\midrule\n1 & 2 \\\\\n\\bottomrule\n\\end\x7blongtable\x7d\nTable latency: Below caption\n")
      = lit "\n\\begin\x7btable\x7d[htbp]\n  \\centering\n  \\caption\x7bPer-node latency\x7d\n  \\label\x7btbl:latency\x7d\n  \\begin\x7btabularx\x7d\x7b\\linewidth\x7d\x7b@\x7b\x7dll@\x7b\x7d\x7d\n    \\toprule\nA & B \\\\\n\\midrule\n\\bottomrule\n  \\end\x7btabularx\x7d\n\\end\x7btable\x7d\n\nTable~\\ref\x7btbl:latency\x7d: Below caption\n"
    ∧ hasSub (lit "\\caption\x7bPer-node latency\x7d")
        (lit "\n\\begin\x7btable\x7d[htbp]\n  \\centering\n  \\caption\x7bPer-node latency\x7d\n  \\label\x7btbl:latency\x7d\n  \\begin\x7btabularx\x7d\x7b\\linewidth\x7d\x7b@\x7b\x7dll@\x7b\x7d\x7d\n    \\toprule\nA & B \\\\\n\\midrule\n\\bottomrule\n  \\end\x7btabularx\x7d\n\\end\x7btable\x7d\n\nTable~\\ref\x7btbl:latency\x7d: Below caption\n") = true
    ∧ hasSub (lit "\\caption\x7bBelow caption\x7d")
        (lit "\n\\begin\x7btable\x7d[htbp]\n  \\centering\n  \\caption\x7bPer-node latency\x7d\n  \\label\x7btbl:latency\x7d\n  \\begin\x7btabularx\x7d\x7b\\linewidth\x7d\x7b@\x7b\x7dll@\x7b\x7d\x7d\n    \\toprule\nA & B \\\\\n\\midrule\n\\bottomrule\n  \\end\x7btabularx\x7d\n\\end\x7btable\x7d\n\nTable~\\ref\x7btbl:latency\x7d: Below caption\n") = false
    ∧ hasSub (lit "Below caption")
        (lit "\n\\begin\x7btable\x7d[htbp]\n  \\centering\n  \\caption\x7bPer-node latency\x7d\n  \\label\x7btbl:latency\x7d\n  \\begin\x7btabularx\x7d\x7b\\linewidth\x7d\x7b@\x7b\x7dll@\x7b\x7d\x7d\n    \\toprule\nA & B \\\\\n\\midrule\n\\bottomrule\n  \\end\x7btabularx\x7d\n\\end\x7btable\x7d\n\nTable~\\ref\x7btbl:latency\x7d: Below caption\n") = true
    ∧ hasSub (lit "\\label\x7btbl:latency\x7d")
        (lit "\n\\begin\x7btable\x7d[htbp]\n  \\centering\n  \\caption\x7bPer-node latency\x7d\n  \\label\x7btbl:latency\x7d\n  \\begin\x7btabularx\x7d\x7b\\linewidth\x7d\x7b@\x7b\x7dll@\x7b\x7d\x7d\n    \\toprule\nA & B \\\\\n\\midrule\n\\bottomrule\n  \\end\x7btabularx\x7d\n\\end\x7btable\x7d\n\nTable~\\ref\x7btbl:latency\x7d: Below caption\n") = true := by
  refine ⟨by decide, by decide, by decide, by decide, by decide⟩

/-- Number of occurrences of `pat` in `t`: one count for every suffix
position of `t` at which `pat` is a prefix. -/
def countSub (pat : Text) : Text → Nat
  | [] => 0
  | c :: cs => (if isPre pat (c :: cs) then 1 else 0) + countSub pat cs

set_option maxRecDepth 40000 in
/-- **C7**: for the document with one longtable immediately preceded by
`Table latency: Per-node latency` and a later prose occurrence of
`Table latency`, the output is exactly the floating table labelled
`tbl:latency` followed by the prose with `Table latency` rewritten to
`Table~\ref\x7btbl:latency\x7d`; the output contains exactly one floating
table begin, the label, and the rewritten cross-reference (the
back-reference pass runs after the table passes, so the substituted text is
never re-matched by the table patterns). -/
theorem claim_C7 :
    process_text (fun _ => false) none
      (lit "Table latency: Per-node latency\n\\begin\x7blongtable\x7d\x7bll\x7d\n\\toprule\nA & B \\\\\n\\midrule\n1 & 2 \\\\\n\\bottomrule\n\\end\x7blongtable\x7d\nSee Table latency for details.\n")
      = lit "\n\\begin\x7btable\x7d[htbp]\n  \\centering\n  \\caption\x7bPer-node latency\x7d\n  \\label\x7btbl:latency\x7d\n  \\begin\x7btabularx\x7d\x7b\\linewidth\x7d\x7b@\x7b\x7dll@\x7b\x7d\x7d\n    \\toprule\nA & B \\\\\n\\midrule\n\\bottomrule\n  \\end\x7btabularx\x7d\n\\end\x7btable\x7d\n\nSee Table~\\ref\x7btbl:latency\x7d for details.\n"
    ∧ countSub (lit "\\begin\x7btable\x7d")
        (process_text (fun _ => false) none
          (lit "Table latency: Per-node latency\n\\begin\x7blongtable\x7d\x7bll\x7d\n\\toprule\nA & B \\\\\n\\midrule\n1 & 2 \\\\\n\\bottomrule\n\\end\x7blongtable\x7d\nSee Table latency for details.\n")) = 1
    ∧ hasSub (lit "\\label\x7btbl:latency\x7d")
        (process_text (fun _ => false) none
          (lit "Table latency: Per-node latency\n\\begin\x7blongtable\x7d\x7bll\x7d\n\\toprule\nA & B \\\\\n\\midrule\n1 & 2 \\\\\n\\bottomrule\n\\end\x7blongtable\x7d\nSee Table latency for details.\n")) = true
    ∧ hasSub (lit "See Table~\\ref\x7btbl:latency\x7d for details.")
        (process_text (fun _ => false) none
          (lit "Table latency: Per-node latency\n\\begin\x7blongtable\x7d\x7bll\x7d\n\\toprule\nA & B \\\\\n\\midrule\n1 & 2 \\\\\n\\bottomrule\n\\end\x7blongtable\x7d\nSee Table latency for details.\n")) = true := by
  refine ⟨by decide, by decide, by decide, by decide⟩

end Post
